import Mathlib

/-!
Shallow embedding of `redcap2xlsform.py`: a converter from REDCap survey
definition CSV exports to the XLSForm spreadsheet schema.

Strings are modelled as `List Char` at the core (with `String` wrappers
mirroring the Python class interfaces).  The Python `re`-based rewriting is
embedded as explicit left-to-right scanners that reproduce the matching
semantics of the concrete regular expressions used by the source (all of
which are backtracking-free, so greedy scanning is exact).  Partial Python
operations (uncaught exceptions: `IndexError`, `TypeError`, missing-header
lookups, parse failures) are modelled with `Option`/`Except`.

Character classes: Python `\w`, `\s` and `str.strip()` are Unicode-aware;
the inputs this development reasons about are ASCII, and the classes are
modelled over ASCII exactly as Python treats ASCII.
-/

set_option maxRecDepth 4000

def isWordChar (c : Char) : Bool := c.isAlphanum || c = '_'

def isSpaceChar (c : Char) : Bool :=
  c = ' ' || c = '\t' || c = '\n' || c = '\r' || c = '\x0b' || c = '\x0c'

def isScalarOpChar (c : Char) : Bool := c = '!' || c = '<' || c = '>' || c = '='

def isArrayOpChar (c : Char) : Bool := c = '!' || c = '='

def isQuoteChar (c : Char) : Bool := c = '\x27' || c = '\x22'

/-- Greedy `{0,2}` repetition of a character class, returning the consumed
characters and the remainder. -/
def takeAtMost2 (p : Char → Bool) : List Char → List Char × List Char
  | [] => ([], [])
  | [c] => if p c then ([c], []) else ([], [c])
  | c1 :: c2 :: rest =>
    if p c1 then (if p c2 then ([c1, c2], rest) else ([c1], c2 :: rest))
    else ([], c1 :: c2 :: rest)

/-- Greedy optional quote (`[\x27\x22]?`), not capturing. -/
def skipOptQuote : List Char → List Char
  | [] => []
  | c :: rest => if isQuoteChar c then rest else c :: rest

/-- Greedy optional quote (`([\x27\x22]?)`), capturing the consumed quote. -/
def takeOptQuote : List Char → List Char × List Char
  | [] => ([], [])
  | c :: rest => if isQuoteChar c then ([c], rest) else ([], c :: rest)

/-- A match of the scalar-reference regex
`\[(\w+)\]\s*([!<>=]{,2})\s*([\x27\x22]?)(\w*)[\x27\x22]?`
of `RelevantConverter.singleVariableRegex`, with its four capture groups and
the text remaining after the match. -/
structure ScalarMatch where
  field : List Char
  op : List Char
  quote : List Char
  value : List Char
  rest : List Char

/-- Attempt the scalar-reference regex at the head of the input. -/
def matchScalar (l : List Char) : Option ScalarMatch :=
  match l with
  | [] => none
  | c :: l1 =>
    if c = '[' then
      let field := l1.takeWhile isWordChar
      if field = [] then none
      else
        match l1.dropWhile isWordChar with
        | [] => none
        | c2 :: l2 =>
          if c2 = ']' then
            let l3 := l2.dropWhile isSpaceChar
            let (op, l4) := takeAtMost2 isScalarOpChar l3
            let l5 := l4.dropWhile isSpaceChar
            let (q, l6) := takeOptQuote l5
            let value := l6.takeWhile isWordChar
            let l7 := l6.dropWhile isWordChar
            some ⟨field, op, q, value, skipOptQuote l7⟩
          else none
    else none

/-- The substitution template `${\1} \2 \3\4\3` of
`RelevantConverter.singleVariableSubstituteRegex` (note: group 3, the opening
quote, is emitted on both sides of the literal). -/
def scalarReplacement (m : ScalarMatch) : List Char :=
  ['$', '\x7b'] ++ m.field ++ ['\x7d', ' '] ++ m.op ++ [' '] ++ m.quote ++ m.value ++ m.quote

/-- Global left-to-right substitution of the scalar-reference regex
(`re.sub`), fuelled; every step consumes at least one character, so fuel
equal to the input length is exact. -/
def scalarSubGo : Nat → List Char → List Char
  | 0, l => l
  | fuel + 1, l =>
    match l with
    | [] => []
    | c :: rest =>
      match matchScalar (c :: rest) with
      | some m => scalarReplacement m ++ scalarSubGo fuel m.rest
      | none => c :: scalarSubGo fuel rest

def scalarSub (l : List Char) : List Char := scalarSubGo l.length l

/-- A match of the array-reference regex
`\[(\w+)\((\w+)\)\]\s*([!=]{,2})\s*[\x27\x22]?(\w*)[\x27\x22]?`
of `RelevantConverter.arrayRegex` with its capture groups. -/
structure ArrayMatch where
  arrayName : List Char
  item : List Char
  op : List Char
  value : List Char
  rest : List Char

/-- Attempt the array-reference regex at the head of the input. -/
def matchArray (l : List Char) : Option ArrayMatch :=
  match l with
  | [] => none
  | c :: l1 =>
    if c = '[' then
      let a := l1.takeWhile isWordChar
      if a = [] then none
      else
        match l1.dropWhile isWordChar with
        | [] => none
        | c2 :: l2 =>
          if c2 = '(' then
            let it := l2.takeWhile isWordChar
            if it = [] then none
            else
              match l2.dropWhile isWordChar with
              | c3 :: c4 :: l3 =>
                if c3 = ')' ∧ c4 = ']' then
                  let l4 := l3.dropWhile isSpaceChar
                  let (op, l5) := takeAtMost2 isArrayOpChar l4
                  let l6 := l5.dropWhile isSpaceChar
                  let l7 := skipOptQuote l6
                  let value := l7.takeWhile isWordChar
                  let l8 := l7.dropWhile isWordChar
                  some ⟨a, it, op, value, skipOptQuote l8⟩
                else none
              | _ => none
          else none
    else none

/-- Leftmost match of the array-reference regex (`re.search`): returns the
text before the match and the match itself. -/
def findArrayGo : List Char → Option (List Char × ArrayMatch)
  | [] => none
  | c :: rest =>
    match matchArray (c :: rest) with
    | some m => some ([], m)
    | none => (findArrayGo rest).map (fun pm => (c :: pm.1, pm.2))

/-- The substitution `selected('<array>','<item>')` of
`RelevantConverter.arraySubstitute`. -/
def arraySubstitute (a it : List Char) : List Char :=
  "selected(\x27".data ++ a ++ "\x27,\x27".data ++ it ++ "\x27)".data

/-- The `while re.search(...)` loop of `RelevantConverter.convertArrays`,
replacing one leftmost match per iteration; `none` models the `IndexError`
raised by `match.group(4)[-1]` when the value group is empty.  Each
iteration removes one `[` and introduces none, so fuel `length + 1` is
exact. -/
def convertArraysGo : Nat → List Char → Option (List Char)
  | 0, l => some l
  | fuel + 1, l =>
    match findArrayGo l with
    | none => some l
    | some (pre, m) =>
      match m.value.getLast? with
      | none => none
      | some v =>
        let sub := arraySubstitute m.arrayName m.item
        let sub2 :=
          if (m.op = ['='] ∧ v = '0') ∨ (m.op = ['!', '='] ∧ v = '1') then
            "not(".data ++ sub ++ ")".data
          else sub
        convertArraysGo fuel (pre ++ sub2 ++ m.rest)

def convertArrays (l : List Char) : Option (List Char) := convertArraysGo (l.length + 1) l

/-- Global substitution `re.sub("<>", "!=", ...)`. -/
def diffSub : List Char → List Char
  | c1 :: c2 :: rest =>
    if c1 = '<' ∧ c2 = '>' then '!' :: '=' :: diffSub rest else c1 :: diffSub (c2 :: rest)
  | l => l

/-- Global substitution `re.sub("(?i)or", "or", ...)`: every case-insensitive
occurrence of `or` is replaced by the lowercase literal `or`. -/
def lowerOrSub : List Char → List Char
  | c1 :: c2 :: rest =>
    if (c1 = 'o' ∨ c1 = 'O') ∧ (c2 = 'r' ∨ c2 = 'R') then
      'o' :: 'r' :: lowerOrSub rest
    else c1 :: lowerOrSub (c2 :: rest)
  | l => l

/-- Global substitution `re.sub("(?i)and", "and", ...)`. -/
def lowerAndSub : List Char → List Char
  | c1 :: c2 :: c3 :: rest =>
    if (c1 = 'a' ∨ c1 = 'A') ∧ (c2 = 'n' ∨ c2 = 'N') ∧ (c3 = 'd' ∨ c3 = 'D') then
      'a' :: 'n' :: 'd' :: lowerAndSub rest
    else c1 :: lowerAndSub (c2 :: c3 :: rest)
  | l => l

namespace RelevantConverter

/-- `RelevantConverter.convertToXLS`: scalar references, then array
references, then `<>` → `!=`, then the two case-insensitive `or`/`and`
substitutions.  `none` models the uncaught exception from `convertArrays`. -/
def convertToXLS (expression : String) : Option String :=
  (convertArrays (scalarSub expression.data)).map
    (fun l => String.mk (lowerAndSub (lowerOrSub (diffSub l))))

end RelevantConverter

namespace RequiredConverter

/-- `RequiredConverter.convertToXLS`: `'yes'` iff the raw cell equals the
lowercase string `y`, else `'no'`. -/
def convertToXLS (required : String) : String :=
  if required = "y" then "yes" else "no"

end RequiredConverter

namespace TypeConverter

/-- The lookup `{'descriptive': 'note', 'notes': 'text', 'calc': 'calculate'}`. -/
def convertFromTypeLookup (t : String) : Option String :=
  if t = "descriptive" then some "note"
  else if t = "notes" then some "text"
  else if t = "calc" then some "calculate"
  else none

/-- The lookup `{'radio': 'select_one ', 'checkbox': 'select_multiple ',
'dropdown': 'select_one '}` (values keep their trailing space). -/
def convertFromTypeWithChoicesLookup (t : String) : Option String :=
  if t = "radio" then some "select_one "
  else if t = "checkbox" then some "select_multiple "
  else if t = "dropdown" then some "select_one "
  else none

/-- The lookup `{'date_dmy': 'date', 'time': 'time', 'number': 'decimal',
'integer': 'integer'}` over the validation type. -/
def convertFromTypeAndValidationLookup (v : String) : Option String :=
  if v = "date_dmy" then some "date"
  else if v = "time" then some "time"
  else if v = "number" then some "decimal"
  else if v = "integer" then some "integer"
  else none

def makeListName (listNumber : Nat) : String := "list_" ++ toString listNumber

/-- `TypeConverter.convertToXLS`: returns the XLSForm type string and the
list-number increment (1 = `incrementListNumber`, 0 = `leaveListNumber`),
resolving the branches in the source's `if/elif` order. -/
def convertToXLS (type_ validation : String) (listNumber : Nat) : String × Nat :=
  if type_ = "yesno" then ("select_one yes_no", 0)
  else
    match convertFromTypeLookup type_ with
    | some r => (r, 0)
    | none =>
      match convertFromTypeWithChoicesLookup type_ with
      | some body => (body ++ makeListName listNumber, 1)
      | none =>
        match convertFromTypeAndValidationLookup validation with
        | some r => (r, 0)
        | none => ("text", 0)

end TypeConverter

namespace LabelConverter

/-- `LabelConverter.convertToXLS`.  The external `html2text.html2text`
library is out of scope and passed in as the function `h2t`. -/
def convertToXLS (h2t : String → String) (label name : String) : String :=
  if label ≠ "" then h2t label else name

end LabelConverter

namespace ConstraintConverter

/-- `ConstraintConverter.convertToXLS`: lower bound `(. >= min)`, upper
bound `(. <= max)`, joined with `and`; empty bounds are skipped. -/
def convertToXLS (min_ max_ : String) : String :=
  let c1 := if min_ ≠ "" then "(. >= " ++ min_ ++ ")" else ""
  if max_ ≠ "" then
    (if c1 ≠ "" then c1 ++ " and " ++ "(. <= " ++ max_ ++ ")" else "(. <= " ++ max_ ++ ")")
  else c1

end ConstraintConverter

namespace HintsConverter

def convertToXLS (hint : String) : String := hint

end HintsConverter

namespace NameConverter

def convertToXLS (name : String) : String := name

end NameConverter

/-- An entry of the choices sheet.  `listName` is an `Option` because the
source stores Python `None` when the field's type string has no list-name
component. -/
structure XLSChoice where
  listName : Option String
  name : String
  label : String
deriving DecidableEq

/-- Python `str.split(sep)` for a one-character separator: always returns at
least one (possibly empty) piece. -/
def splitOnChar (sep : Char) : List Char → List (List Char)
  | [] => [[]]
  | c :: rest =>
    if c = sep then [] :: splitOnChar sep rest
    else
      match splitOnChar sep rest with
      | h :: t => (c :: h) :: t
      | [] => [[c]]

def splitOnCharS (sep : Char) (s : String) : List String :=
  (splitOnChar sep s.data).map String.mk

/-- Python `str.strip()` over ASCII whitespace. -/
def stripChars (l : List Char) : List Char :=
  ((l.dropWhile isSpaceChar).reverse.dropWhile isSpaceChar).reverse

def strip (s : String) : String := String.mk (stripChars s.data)

namespace ChoicesConverter

/-- `ChoicesConverter._separateChoices`: split the cell on `|`, empty cell
giving no choices. -/
def separateChoices (choices : String) : List String :=
  if choices ≠ "" then splitOnCharS '|' choices else []

/-- `ChoicesConverter._extractListName`: the second word of the type string
when splitting on a single space yields exactly two pieces, else `None`. -/
def extractListName (type_ : String) : Option String :=
  match splitOnCharS ' ' type_ with
  | [_, b] => some b
  | _ => none

/-- Core of `ChoicesConverter._splitChoice` on character lists: split on all
commas if one occurs, else on all colons, else fail (the source raises
`Exception('Cannot read choice in this format: ...')`); pieces 0 and 1 are
stripped and returned, later pieces are dropped. -/
def splitChoiceChars (choice : List Char) : Option (List Char × List Char) :=
  if ',' ∈ choice then
    match splitOnChar ',' choice with
    | a :: b :: _ => some (stripChars a, stripChars b)
    | _ => none
  else if ':' ∈ choice then
    match splitOnChar ':' choice with
    | a :: b :: _ => some (stripChars a, stripChars b)
    | _ => none
  else none

/-- `ChoicesConverter._splitChoice` returning (name, label). -/
def splitChoice (choice : String) : Option (String × String) :=
  (splitChoiceChars choice.data).map (fun p => (String.mk p.1, String.mk p.2))

/-- `ChoicesConverter.convertToXLS`: for non-`calculate` types, parse every
`|`-separated definition, tagging entries with the extracted list name;
`none` models the parse exception. -/
def convertToXLS (type_ choices : String) : Option (List XLSChoice) :=
  if type_ ≠ "calculate" then
    (separateChoices choices).mapM
      (fun c => (splitChoice c).map (fun p => XLSChoice.mk (extractListName type_) p.1 p.2))
  else some []

end ChoicesConverter

/-- Global substitution of `\[(\w+)\]` by `${\1}`
(`CalculationsConverter.singleVariableRegex`). -/
def calcSingleGo : Nat → List Char → List Char
  | 0, l => l
  | fuel + 1, l =>
    match l with
    | [] => []
    | c :: rest =>
      if c = '[' then
        match rest.takeWhile isWordChar, rest.dropWhile isWordChar with
        | [], _ => c :: calcSingleGo fuel rest
        | w, c2 :: r2 =>
          if c2 = ']' then ('$' :: '\x7b' :: w ++ ['\x7d']) ++ calcSingleGo fuel r2
          else c :: calcSingleGo fuel rest
        | _, [] => c :: calcSingleGo fuel rest
      else c :: calcSingleGo fuel rest

/-- Global substitution of `\[(\w+)\((\w+)\)\]` by `selected(${\1},'\2')`
(`CalculationsConverter.arrayRegex`). -/
def calcArrayGo : Nat → List Char → List Char
  | 0, l => l
  | fuel + 1, l =>
    match l with
    | [] => []
    | c :: rest =>
      if c = '[' then
        match rest.takeWhile isWordChar, rest.dropWhile isWordChar with
        | [], _ => c :: calcArrayGo fuel rest
        | w, c2 :: r2 =>
          if c2 = '(' then
            match r2.takeWhile isWordChar, r2.dropWhile isWordChar with
            | [], _ => c :: calcArrayGo fuel rest
            | w2, c3 :: c4 :: r3 =>
              if c3 = ')' ∧ c4 = ']' then
                ("selected($\x7b".data ++ w ++ "\x7d,\x27".data ++ w2 ++ "\x27)".data) ++
                  calcArrayGo fuel r3
              else c :: calcArrayGo fuel rest
            | _, _ => c :: calcArrayGo fuel rest
          else c :: calcArrayGo fuel rest
        | _, [] => c :: calcArrayGo fuel rest
      else c :: calcArrayGo fuel rest

namespace CalculationsConverter

/-- `CalculationsConverter.convertToXLS`: only for resolved type
`calculate`; rewrites scalar references then array references. -/
def convertToXLS (type_ expression : String) : String :=
  if type_ = "calculate" then
    String.mk (calcArrayGo (expression.data.length) (calcSingleGo (expression.data.length) expression.data))
  else ""

end CalculationsConverter

/-- Case-insensitive ASCII prefix test. -/
def prefixCI : List Char → List Char → Bool
  | [], _ => true
  | _ :: _, [] => false
  | p :: ps, c :: cs => (c.toLower = p) && prefixCI ps cs

/-- A match of `(?i)@default\s*=\s*[\x27\x22]?([^\x27\x22]*)[\x27\x22]?`
attempted at the head of the input, returning group 1. -/
def matchDefault (l : List Char) : Option (List Char) :=
  match l with
  | [] => none
  | c :: rest =>
    if c = '@' ∧ prefixCI "default".data rest then
      let l1 := (rest.drop 7).dropWhile isSpaceChar
      match l1 with
      | c2 :: l2 =>
        if c2 = '=' then
          let l3 := skipOptQuote (l2.dropWhile isSpaceChar)
          some (l3.takeWhile (fun ch => !(isQuoteChar ch)))
        else none
      | [] => none
    else none

/-- `re.search` for the default-value pattern. -/
def searchDefaultGo : List Char → Option (List Char)
  | [] => none
  | c :: rest =>
    match matchDefault (c :: rest) with
    | some v => some v
    | none => searchDefaultGo rest

namespace DeafultsConverter

/-- `DeafultsConverter.convertToXLS` (the source class name carries the
typo): the value captured after a case-insensitive `@default =`, else the
empty string. -/
def convertToXLS (annot : String) : String :=
  match searchDefaultGo annot.data with
  | some v => String.mk v
  | none => ""

end DeafultsConverter

/-- `re.search("(?i)@hidden", ...)` as a Boolean. -/
def searchHidden : List Char → Bool
  | [] => false
  | c :: rest => prefixCI "@hidden".data (c :: rest) || searchHidden rest

namespace ReadOnlyConverter

/-- `ReadOnlyConverter.convertToXLS`: `"yes"` when the annotation cell
contains a case-insensitive `@hidden`, else the empty string. -/
def convertToXLS (annot : String) : String :=
  if searchHidden annot.data then "yes" else ""

end ReadOnlyConverter

namespace HeaderConverter

/-- `HeaderConverter.headersConversionLookup` followed by `.get(h, None)`. -/
def headersConversionLookup (h : String) : Option String :=
  if h = "Variable / Field Name" then some "name"
  else if h = "Field Type" then some "type"
  else if h = "Field Label" then some "label"
  else if h = "Text Validation Min" then some "constraint"
  else if h = "Branching Logic (Show field only if...)" then some "relevant"
  else if h = "Required Field?" then some "required"
  else if h = "Field Note" then some "hint"
  else none

/-- `HeaderConverter.convertToXLS`. -/
def convertToXLS (header : String) : Option String := headersConversionLookup header

end HeaderConverter

/-- First index of an element in a list (Python `list.index`, as `Option`). -/
def indexOfFirst {α : Type} [DecidableEq α] : List α → α → Option Nat
  | [], _ => none
  | x :: rest, a => if x = a then some 0 else (indexOfFirst rest a).map (· + 1)

/-- Index assigned to a key by a Python dict built by enumerating a list
(`for i, h in enumerate(headers): d[h] = i`): the last occurrence wins. -/
def headerDictGet : List String → String → Option Nat
  | [], _ => none
  | x :: rest, h =>
    match headerDictGet rest h with
    | some i => some (i + 1)
    | none => if x = h then some 0 else none

/-- The content of one REDCap form (name, shared headers, rows). -/
structure RedcapContent where
  name : String
  headers : List String
  questions : List (List String)
deriving DecidableEq

/-- The converted content of one form. -/
structure XLSContent where
  name : String
  headers : List String
  questions : List (List String)
  choices : List XLSChoice
deriving DecidableEq

/-- Errors terminating a conversion run.  `crossForm` models
`CrossFormsReferenceException` (carrying the offending 0-based row index and
the row itself), `missingColumn` models
`ColumnToCopyDoesNotExistException`, and `crash` any other uncaught Python
exception. -/
inductive ConvError where
  | crash : ConvError
  | missingColumn : String → ConvError
  | crossForm : Nat → List String → ConvError
deriving DecidableEq

def liftO {α : Type} : Option α → Except ConvError α
  | some a => .ok a
  | none => .error .crash

deriving instance DecidableEq for Except

namespace Converter

def defaultChoices : List XLSChoice :=
  [⟨some "yes_no", "yes", "Yes"⟩, ⟨some "yes_no", "no", "No"⟩]

def defaultHeaders : List String := ["calculation", "default", "read_only"]

/-- `Converter._convertHeaders`: map each input header through the lookup,
dropping unrecognized ones, then append the computed headers and the
pass-through columns. -/
def convertHeaders (redcapHeaders columnsToCopy : List String) : List String :=
  (redcapHeaders.filterMap HeaderConverter.headersConversionLookup) ++
    defaultHeaders ++ columnsToCopy

end Converter

/-- `RowConverter._getRedcapVal`: dict lookup of the header's index (`none`
models the `TypeError` on a missing header), out-of-range indices give `''`. -/
def getRedcapVal (redcapHeaders row : List String) (h : String) : Option String :=
  (headerDictGet redcapHeaders h).map (fun i => if i < row.length then row.getD i "" else "")

/-- `RowConverter._setXLSVal` (`none` models the `TypeError` on a header
missing from the converted headers). -/
def setXLSVal (convertedHeaders r : List String) (h v : String) : Option (List String) :=
  (headerDictGet convertedHeaders h).map (fun i => r.set i v)

/-- The triple returned by `RowConverter.convertToXLS`; `question = none`
models the `''` sentinel returned for a row with an empty field name. -/
structure RowResult where
  question : Option (List String)
  choices : List XLSChoice
  listIncrement : Nat
deriving DecidableEq

/-- One pending `_setXLSVal` write: `guarded = true` for the `_convert*`
calls that first check `_hasXLSHeader` (skip silently when the output column
is absent), `false` for the unconditional ones (which crash when it is
absent). -/
def applyWrite (convertedHeaders r : List String) (w : Bool × String × String) :
    Option (List String) :=
  if w.1 ∧ w.2.1 ∉ convertedHeaders then some r else setXLSVal convertedHeaders r w.2.1 w.2.2

namespace RowConverter

/-- The headers `RowConverter._processValues` reads, in source order. -/
def processedHeaders : List String :=
  ["Variable / Field Name", "Field Type", "Text Validation Type OR Show Slider Number",
   "Field Label", "Text Validation Min", "Text Validation Max",
   "Branching Logic (Show field only if...)", "Required Field?",
   "Choices, Calculations, OR Slider Labels", "Field Annotation", "Field Note"]

/-- `RowConverter.convertToXLS` (together with `__init__`'s
`_processValues`): reads every recognized cell (a missing header is the
modelled `TypeError` crash), returns the empty sentinel for a row with an
empty field name, and otherwise fills the output row via the field
converters, in the source's write order (name, type, label, constraint,
relevant, required, hint, calculation, default, read_only, pass-through
columns).  When the `type` output column is absent the source crashes on the
unset `convertedType` attribute, modelled by `none`; the relevant converter
only runs when the `relevant` output column was requested. -/
def convertToXLS (h2t : String → String) (redcapHeaders convertedHeaders : List String)
    (listNumber : Nat) (columnsToCopy : List String) (row : List String) :
    Option RowResult :=
  (processedHeaders.mapM (getRedcapVal redcapHeaders row)).bind fun vs =>
  (columnsToCopy.mapM (fun c => (getRedcapVal redcapHeaders row c).map (fun v => (c, v)))).bind
    fun additional =>
  let name := vs.getD 0 ""
  if name = "" then
    some ⟨none, [], 0⟩
  else if "type" ∈ convertedHeaders then
    let tc := TypeConverter.convertToXLS (vs.getD 1 "") (vs.getD 2 "") listNumber
    (if "relevant" ∈ convertedHeaders then RelevantConverter.convertToXLS (vs.getD 6 "")
     else some "").bind fun rel =>
    (ChoicesConverter.convertToXLS tc.1 (vs.getD 8 "")).bind fun chs =>
    let writes : List (Bool × String × String) :=
      [(true, "name", NameConverter.convertToXLS name),
       (true, "type", tc.1),
       (true, "label", LabelConverter.convertToXLS h2t (vs.getD 3 "") name),
       (true, "constraint", ConstraintConverter.convertToXLS (vs.getD 4 "") (vs.getD 5 "")),
       (true, "relevant", rel),
       (true, "required", RequiredConverter.convertToXLS (vs.getD 7 "")),
       (true, "hint", HintsConverter.convertToXLS (vs.getD 10 "")),
       (false, "calculation", CalculationsConverter.convertToXLS tc.1 (vs.getD 8 "")),
       (false, "default", DeafultsConverter.convertToXLS (vs.getD 9 "")),
       (false, "read_only", ReadOnlyConverter.convertToXLS (vs.getD 9 ""))] ++
        additional.map (fun cv => (false, cv.1, cv.2))
    (writes.foldlM (applyWrite convertedHeaders) (List.replicate convertedHeaders.length "")).bind
      fun r => some ⟨some r, chs, tc.2⟩
  else none

end RowConverter

/-- Code-point lexicographic ≤ on character lists (the order Python's
`sorted` uses for strings). -/
def charListLe : List Char → List Char → Bool
  | [], _ => true
  | _ :: _, [] => false
  | a :: as, b :: bs =>
    if a.toNat < b.toNat then true
    else if b.toNat < a.toNat then false
    else charListLe as bs

def strLe (s t : String) : Bool := charListLe s.data t.data

/-- Insert into a ≤-sorted list of strings. -/
def insertStr (s : String) : List String → List String
  | [] => [s]
  | t :: ts => if strLe s t then s :: t :: ts else t :: insertStr s ts

/-- Python `sorted` on strings (code-point lexicographic). -/
def sortStrings : List String → List String
  | [] => []
  | s :: ss => insertStr s (sortStrings ss)

namespace Converter

/-- `Converter._beginGroup`. -/
def beginGroup (headers : List String) (prevGroups : Nat) (label : String) :
    Option (List String) := do
  let i1 ← indexOfFirst headers "name"
  let i2 ← indexOfFirst headers "label"
  let i3 ← indexOfFirst headers "type"
  some ((((List.replicate headers.length "").set i1 ("group_" ++ toString (prevGroups + 1))).set
    i2 label).set i3 "begin group")

/-- `Converter._endGroup`. -/
def endGroup (headers : List String) : Option (List String) :=
  (indexOfFirst headers "type").map (fun i => (List.replicate headers.length "").set i "end group")

/-- The loop state of `Converter._convertContent`.  `lastNames` models the
Python loop-local `namesFromSet`, which leaks across iterations. -/
structure CState where
  questions : List (List String)
  choices : List XLSChoice
  listNumber : Nat
  listNumberMax : Nat
  choiceSets : List (List String)
  prevGroups : Nat
  lastNames : Option (List String)
deriving DecidableEq

/-- One iteration of the `Converter._convertContent` loop. -/
def step (h2t : String → String) (redcapHeaders convertedHeaders columnsToCopy : List String)
    (st : CState) (row : List String) : Option CState :=
  if row = [] then some st
  else do
    let shIdx ← indexOfFirst redcapHeaders "Section Header"
    let sh ← row[shIdx]?
    let (qs1, pg1) ←
      if sh ≠ "" then do
        let qs' ←
          if st.prevGroups > 0 then (endGroup convertedHeaders).map (st.questions ++ [·])
          else some st.questions
        let bg ← beginGroup convertedHeaders st.prevGroups sh
        some (qs' ++ [bg], st.prevGroups + 1)
      else some (st.questions, st.prevGroups)
    let res1 ← RowConverter.convertToXLS h2t redcapHeaders convertedHeaders st.listNumber
      columnsToCopy row
    let (ln2, lmax2, last2) :=
      if res1.choices ≠ [] then
        let names := sortStrings (res1.choices.map (·.name))
        match indexOfFirst st.choiceSets names with
        | none => (st.listNumberMax, st.listNumberMax + res1.listIncrement, some names)
        | some k => (k, st.listNumberMax, some names)
      else (st.listNumber, st.listNumberMax, st.lastNames)
    let res2 ← RowConverter.convertToXLS h2t redcapHeaders convertedHeaders ln2
      columnsToCopy row
    let qs2 := match res2.question with
      | some q => if q = [] then qs1 else qs1 ++ [q]
      | none => qs1
    let (chs3, sets3) ←
      if res2.choices ≠ [] then
        match last2 with
        | none => none
        | some names =>
          if names ∈ st.choiceSets then some (st.choices, st.choiceSets)
          else some (st.choices ++ res2.choices, st.choiceSets ++ [names])
      else some (st.choices, st.choiceSets)
    some ⟨qs2, chs3, ln2, lmax2, sets3, pg1, last2⟩

/-- The fold of `step` over the rows of one form. -/
def convertRows (h2t : String → String) (redcapHeaders convertedHeaders columnsToCopy : List String) :
    CState → List (List String) → Option CState
  | st, [] => some st
  | st, row :: rest =>
    (step h2t redcapHeaders convertedHeaders columnsToCopy st row).bind
      (fun st' => convertRows h2t redcapHeaders convertedHeaders columnsToCopy st' rest)

/-- `Converter._convertContent`: fold the rows from the initial state (the
two built-in yes/no choices, empty registry), then close any open group. -/
def convertContent (h2t : String → String) (redcapHeaders columnsToCopy : List String)
    (rows : List (List String)) : Option (List (List String) × List XLSChoice) := do
  let ch := convertHeaders redcapHeaders columnsToCopy
  let st ← convertRows h2t redcapHeaders ch columnsToCopy ⟨[], defaultChoices, 0, 0, [], 0, none⟩ rows
  let qs ←
    if st.prevGroups > 0 then (endGroup ch).map (st.questions ++ [·])
    else some st.questions
  some (qs, st.choices)

/-- Conversion of one form (`Converter.convert` loop body). -/
def convertOneForm (h2t : String → String) (columnsToCopy : List String) (f : RedcapContent) :
    Option XLSContent :=
  (convertContent h2t f.headers columnsToCopy f.questions).map
    (fun qc => ⟨f.name, convertHeaders f.headers columnsToCopy, qc.1, qc.2⟩)

/-- `Converter.convert`: each form is converted independently, from a fresh
choice-list registry. -/
def convert (h2t : String → String) (columnsToCopy : List String)
    (forms : List RedcapContent) : Option (List XLSContent) :=
  forms.mapM (convertOneForm h2t columnsToCopy)

end Converter

/-- `re.findall` of `\[(\w+)\]` (group 1 of each non-overlapping match). -/
def findallSingleGo : Nat → List Char → List (List Char)
  | 0, _ => []
  | fuel + 1, l =>
    match l with
    | [] => []
    | c :: rest =>
      if c = '[' then
        match rest.takeWhile isWordChar, rest.dropWhile isWordChar with
        | [], _ => findallSingleGo fuel rest
        | w, c2 :: r2 =>
          if c2 = ']' then w :: findallSingleGo fuel r2
          else findallSingleGo fuel rest
        | _, [] => findallSingleGo fuel rest
      else findallSingleGo fuel rest

/-- `re.findall` of `\[(\w+)\(\w+\)\]` (group 1 of each match). -/
def findallArrayGo : Nat → List Char → List (List Char)
  | 0, _ => []
  | fuel + 1, l =>
    match l with
    | [] => []
    | c :: rest =>
      if c = '[' then
        match rest.takeWhile isWordChar, rest.dropWhile isWordChar with
        | [], _ => findallArrayGo fuel rest
        | w, c2 :: r2 =>
          if c2 = '(' then
            match r2.takeWhile isWordChar, r2.dropWhile isWordChar with
            | [], _ => findallArrayGo fuel rest
            | _, c3 :: c4 :: r3 =>
              if c3 = ')' ∧ c4 = ']' then w :: findallArrayGo fuel r3
              else findallArrayGo fuel rest
            | _, _ => findallArrayGo fuel rest
          else findallArrayGo fuel rest
        | _, [] => findallArrayGo fuel rest
      else findallArrayGo fuel rest

namespace Converter

/-- `Converter._extractVariables`: scalar references then array references. -/
def extractVariables (expression : String) : List String :=
  (findallSingleGo expression.data.length expression.data).map String.mk ++
    (findallArrayGo expression.data.length expression.data).map String.mk

/-- The five header indices `Converter._separateForms` resolves up front. -/
structure SepIdx where
  nameIdx : Nat
  typeIdx : Nat
  branchIdx : Nat
  calcIdx : Nat
  formIdx : Nat
deriving DecidableEq

/-- The loop state of `Converter._separateForms`. -/
structure SepState where
  forms : List RedcapContent
  currentName : String
  currentForm : List (List String)
  currentVars : List String
deriving DecidableEq

/-- The field references a row must justify: its branching-logic expression,
plus (for a `calc` field) its calculation expression. -/
def sepRowVars (ix : SepIdx) (row : List String) : Except ConvError (List String) := do
  let branch ← liftO row[ix.branchIdx]?
  let ty ← liftO row[ix.typeIdx]?
  if ty = "calc" then do
    let calcCell ← liftO row[ix.calcIdx]?
    pure (extractVariables branch ++ extractVariables calcCell)
  else
    pure (extractVariables branch)

/-- One iteration of the `Converter._separateForms` loop over a non-skipped
row at index `i`. -/
def sepStep (headers : List String) (ix : SepIdx) (i : Nat) (st : SepState)
    (row : List String) : Except ConvError SepState :=
  if row = [] then .ok st
  else do
    let formName ← liftO row[ix.formIdx]?
    let st1 :=
      if formName ≠ st.currentName ∧ formName ≠ "" then
        SepState.mk (st.forms ++ [⟨st.currentName, headers, st.currentForm⟩]) formName [] []
      else st
    let vars ← sepRowVars ix row
    if vars.any (fun v => decide (v ∉ st1.currentVars)) then
      .error (.crossForm i row)
    else do
      let nm ← liftO row[ix.nameIdx]?
      .ok (SepState.mk st1.forms st1.currentName (st1.currentForm ++ [row])
        (st1.currentVars ++ [nm]))

/-- The indexed fold of `sepStep`. -/
def sepGo (headers : List String) (ix : SepIdx) :
    Nat → SepState → List (List String) → Except ConvError SepState
  | _, st, [] => .ok st
  | i, st, row :: rest =>
    (sepStep headers ix i st row).bind (fun st' => sepGo headers ix (i + 1) st' rest)

/-- `Converter._separateForms`. -/
def separateForms (headers : List String) (questions : List (List String)) :
    Except ConvError (List RedcapContent) := do
  let nameIdx ← liftO (indexOfFirst headers "Variable / Field Name")
  let typeIdx ← liftO (indexOfFirst headers "Field Type")
  let branchIdx ← liftO (indexOfFirst headers "Branching Logic (Show field only if...)")
  let calcIdx ← liftO (indexOfFirst headers "Choices, Calculations, OR Slider Labels")
  let formIdx ← liftO (indexOfFirst headers "Form Name")
  let q0 ← liftO questions.head?
  let firstName ← liftO q0[formIdx]?
  let fin ← sepGo headers ⟨nameIdx, typeIdx, branchIdx, calcIdx, formIdx⟩ 0
    (SepState.mk [] firstName [] []) questions
  .ok (fin.forms ++ [⟨fin.currentName, headers, fin.currentForm⟩])

/-- `Converter.__init__`'s mode dispatch: only the `zip_xls` mode splits
forms (and can therefore raise the cross-form error). -/
def formsOf (mode : String) (content : RedcapContent) : Except ConvError (List RedcapContent) :=
  if mode = "zip_xls" then separateForms content.headers content.questions
  else .ok [content]

/-- A whole conversion run: pass-through column check, mode dispatch, then
per-form conversion. -/
def run (h2t : String → String) (content : RedcapContent) (mode : String)
    (columnsToCopy : List String) : Except ConvError (List XLSContent) :=
  match columnsToCopy.find? (fun c => decide (c ∉ content.headers)) with
  | some c => .error (.missingColumn c)
  | none => do
    let forms ← formsOf mode content
    liftO (convert h2t columnsToCopy forms)

end Converter

/-- The thirteen recognized REDCap headers in their usual export order; used
to state row-level properties. -/
def stdHeaders : List String :=
  ["Variable / Field Name", "Form Name", "Section Header", "Field Type", "Field Label",
   "Choices, Calculations, OR Slider Labels", "Field Note",
   "Text Validation Type OR Show Slider Number", "Text Validation Min", "Text Validation Max",
   "Branching Logic (Show field only if...)", "Required Field?", "Field Annotation"]

/-- The converted headers produced for `stdHeaders` with no pass-through
columns. -/
def stdConvertedHeaders : List String :=
  ["name", "type", "label", "hint", "constraint", "relevant", "required",
   "calculation", "default", "read_only"]

/-- The (name, label) pairs parsed from a choices cell, independent of the
list name: the data `ChoicesConverter.convertToXLS` tags. -/
def choicesPairs (choices : String) : Option (List (String × String)) :=
  (ChoicesConverter.separateChoices choices).mapM ChoicesConverter.splitChoice

/-- The survey row produced for a choice-bearing field resolved at list
index `k` over the standard headers (used to state C5). -/
def choiceRowOut (h2t : String → String) (body : String) (k : Nat)
    (nm lb ch hn mn mx rel rq an : String) : List String :=
  [nm, body ++ TypeConverter.makeListName k, LabelConverter.convertToXLS h2t lb nm, hn,
   ConstraintConverter.convertToXLS mn mx, rel, RequiredConverter.convertToXLS rq,
   CalculationsConverter.convertToXLS (body ++ TypeConverter.makeListName k) ch,
   DeafultsConverter.convertToXLS an, ReadOnlyConverter.convertToXLS an]

/-- The choice entries produced for a choice-bearing field resolved at list
index `k` (used to state C5). -/
def choiceEntriesOut (body : String) (k : Nat) (pairs : List (String × String)) :
    List XLSChoice :=
  pairs.map (fun p =>
    XLSChoice.mk (ChoicesConverter.extractListName (body ++ TypeConverter.makeListName k))
      p.1 p.2)

/-- The prefix of `l` before the first occurrence of `sep`: piece 0 of a
Python `split(sep)`. -/
def upToChar (sep : Char) (l : List Char) : List Char :=
  l.takeWhile (fun c => !(c == sep))

theorem takeWhile_append_stop (p : Char → Bool) (xs : List Char) (y : Char) (ys : List Char)
    (hx : ∀ c ∈ xs, p c = true) (hy : p y = false) :
    (xs ++ y :: ys).takeWhile p = xs := by
  induction xs with
  | nil => simp [List.takeWhile_cons, hy]
  | cons a l ih =>
    have ha : p a = true := hx a (by simp)
    simp only [List.cons_append, List.takeWhile_cons, ha, if_true]
    rw [ih (fun c hc => hx c (by simp [hc]))]

theorem dropWhile_append_stop (p : Char → Bool) (xs : List Char) (y : Char) (ys : List Char)
    (hx : ∀ c ∈ xs, p c = true) (hy : p y = false) :
    (xs ++ y :: ys).dropWhile p = y :: ys := by
  induction xs with
  | nil => simp [List.dropWhile_cons, hy]
  | cons a l ih =>
    have ha : p a = true := hx a (by simp)
    simp only [List.cons_append, List.dropWhile_cons, ha, if_true]
    exact ih (fun c hc => hx c (by simp [hc]))

theorem scalarSubGo_nil (fuel : Nat) : scalarSubGo fuel [] = [] := by
  cases fuel <;> rfl

theorem splitOnChar_head (sep : Char) (l : List Char) :
    ∃ t, splitOnChar sep l = upToChar sep l :: t := by
  induction l with
  | nil => exact ⟨[], rfl⟩
  | cons c rest ih =>
    by_cases hc : c = sep
    · subst hc
      exact ⟨splitOnChar c rest, by simp [splitOnChar, upToChar, List.takeWhile_cons]⟩
    · obtain ⟨t, ht⟩ := ih
      refine ⟨t, ?_⟩
      simp only [splitOnChar, hc, if_false, ht, upToChar, List.takeWhile_cons]
      simp [hc]

theorem splitOnChar_append (sep : Char) (pre post : List Char) (h : sep ∉ pre) :
    splitOnChar sep (pre ++ sep :: post) = pre :: splitOnChar sep post := by
  induction pre with
  | nil => simp [splitOnChar]
  | cons c pre' ih =>
    have hc : ¬ c = sep := fun e => h (by simp [e])
    have ih' := ih (fun e => h (by simp [e]))
    simp only [List.cons_append, splitOnChar, hc, if_false]
    rw [show pre'.append (sep :: post) = pre' ++ sep :: post from rfl, ih']

theorem lowerOrSub_id : ∀ (l : List Char), (∀ c ∈ l, c ≠ 'O' ∧ c ≠ 'R') → lowerOrSub l = l
  | [], _ => rfl
  | [_], _ => rfl
  | c1 :: c2 :: rest, h => by
    have h1 := h c1 (by simp)
    have h2 := h c2 (by simp)
    by_cases hcond : (c1 = 'o' ∨ c1 = 'O') ∧ (c2 = 'r' ∨ c2 = 'R')
    · have e1 : c1 = 'o' := hcond.1.resolve_right h1.1
      have e2 : c2 = 'r' := hcond.2.resolve_right h2.2
      simp only [lowerOrSub, e1, e2, lowerOrSub_id rest (fun c hc => h c (by simp [hc]))]
      simp
    · simp only [lowerOrSub, if_neg hcond,
        lowerOrSub_id (c2 :: rest) (fun c hc => h c (by simp [hc]))]

theorem lowerAndSub_id : ∀ (l : List Char),
    (∀ c ∈ l, c ≠ 'A' ∧ c ≠ 'N' ∧ c ≠ 'D') → lowerAndSub l = l
  | [], _ => rfl
  | [_], _ => rfl
  | [_, _], _ => rfl
  | c1 :: c2 :: c3 :: rest, h => by
    have h1 := h c1 (by simp)
    have h2 := h c2 (by simp)
    have h3 := h c3 (by simp)
    by_cases hcond : (c1 = 'a' ∨ c1 = 'A') ∧ (c2 = 'n' ∨ c2 = 'N') ∧ (c3 = 'd' ∨ c3 = 'D')
    · have e1 : c1 = 'a' := hcond.1.resolve_right h1.1
      have e2 : c2 = 'n' := hcond.2.1.resolve_right h2.2.1
      have e3 : c3 = 'd' := hcond.2.2.resolve_right h3.2.2
      simp only [lowerAndSub, e1, e2, e3, lowerAndSub_id rest (fun c hc => h c (by simp [hc]))]
      simp
    · simp only [lowerAndSub, if_neg hcond,
        lowerAndSub_id (c2 :: c3 :: rest) (fun c hc => h c (by simp [hc]))]

/-- C3 counterexample: the claim asserts the `or`/`and` pass leaves the
letter case of boolean keywords unchanged, but on
`[a] = 1 OR [b] = 2` the translator produces `${a} = 1 or ${b} = 2`,
lowercasing `OR`; the case-preserving output the claim implies is not
produced. -/
theorem claim_C3_counterexample :
    RelevantConverter.convertToXLS "[a] = 1 OR [b] = 2" = some "$\x7ba\x7d = 1 or $\x7bb\x7d = 2" ∧
    RelevantConverter.convertToXLS "[a] = 1 OR [b] = 2" ≠ some "$\x7ba\x7d = 1 OR $\x7bb\x7d = 2" := by
  refine ⟨by decide, by decide⟩

/-- C3 (amended): the `or`/`and` pass of the Relevant translator is not a
no-op: it rewrites every case-insensitive occurrence of `or`/`and` to the
lowercase literals; consequently it leaves an expression unchanged whenever
the expression contains none of the uppercase letters O, R, A, N, D, while
uppercase spellings such as `OR` are lowercased. -/
theorem claim_C3_amended :
    (∀ l : List Char, (∀ c ∈ l, c ∉ (['O', 'R', 'A', 'N', 'D'] : List Char)) →
      lowerAndSub (lowerOrSub l) = l) ∧
    lowerOrSub "OR".data = "or".data ∧ lowerAndSub "AnD".data = "and".data := by
  refine ⟨fun l h => ?_, by decide, by decide⟩
  have h1 : ∀ c ∈ l, c ≠ 'O' ∧ c ≠ 'R' := fun c hc => by
    have := h c hc; simp at this; exact ⟨this.1, this.2.1⟩
  have h2 : ∀ c ∈ l, c ≠ 'A' ∧ c ≠ 'N' ∧ c ≠ 'D' := fun c hc => by
    have := h c hc; simp at this; exact ⟨this.2.2.1, this.2.2.2.1, this.2.2.2.2⟩
  rw [lowerOrSub_id l h1, lowerAndSub_id l h2]

/-- C3 witness: the amended theorem applied to the expression `xy`. -/
theorem claim_C3_amended_witness :
    (∀ c ∈ "xy".data, c ∉ (['O', 'R', 'A', 'N', 'D'] : List Char)) ∧
    lowerAndSub (lowerOrSub "xy".data) = "xy".data :=
  ⟨by decide, claim_C3_amended.1 "xy".data (by decide)⟩

/-- C4 counterexample: the claim asserts everything after the first
delimiter belongs to the label, but on `1,a,b` the Choices converter
returns label `a` (the piece between the first and second comma), not
`a,b`. -/
theorem claim_C4_counterexample :
    ChoicesConverter.splitChoice "1,a,b" = some ("1", "a") ∧
    ChoicesConverter.splitChoice "1,a,b" ≠ some ("1", "a,b") := by
  refine ⟨by decide, by decide⟩

/-- C4 (amended): a choice definition containing a comma is split on commas
(else on colons, else it is a parse error); the option name is the piece
before the first delimiter, trimmed, and the option label is the piece
between the first and the second occurrence of that delimiter, trimmed —
text after a second delimiter is discarded, not kept in the label. -/
theorem claim_C4_amended :
    (∀ pre post : List Char, ',' ∉ pre →
      ChoicesConverter.splitChoiceChars (pre ++ ',' :: post) =
        some (stripChars pre, stripChars (upToChar ',' post))) ∧
    (∀ pre post : List Char, ',' ∉ pre ++ ':' :: post → ':' ∉ pre →
      ChoicesConverter.splitChoiceChars (pre ++ ':' :: post) =
        some (stripChars pre, stripChars (upToChar ':' post))) ∧
    (∀ l : List Char, ',' ∉ l → ':' ∉ l → ChoicesConverter.splitChoiceChars l = none) := by
  refine ⟨fun pre post h => ?_, fun pre post h h' => ?_, fun l h h' => ?_⟩
  · obtain ⟨t, ht⟩ := splitOnChar_head ',' post
    rw [ChoicesConverter.splitChoiceChars, if_pos (by simp), splitOnChar_append ',' pre post h, ht]
  · obtain ⟨t, ht⟩ := splitOnChar_head ':' post
    rw [ChoicesConverter.splitChoiceChars, if_neg h, if_pos (by simp), splitOnChar_append ':' pre post h', ht]
  · rw [ChoicesConverter.splitChoiceChars, if_neg h, if_neg h']

/-- C4 witness: the amended theorem applied to the definition `2, Two `. -/
theorem claim_C4_amended_witness :
    (',' ∉ "2".data) ∧
    ChoicesConverter.splitChoiceChars ("2".data ++ ',' :: " Two ".data) = some ("2".data, "Two".data) :=
  ⟨by decide, by rw [claim_C4_amended.1 "2".data " Two ".data (by decide)]; decide⟩

/-- C7: the Field Type converter resolves by first match in the order
(a) `yesno` (even when a validation type is set, no slot consumed),
(b) the direct type lookup, (c) the choice-bearing types with `list_<N>`
and one slot consumed, (d) the validation lookup, (e) the `text`
fallback. -/
theorem claim_C7 :
    (∀ v n, TypeConverter.convertToXLS "yesno" v n = ("select_one yes_no", 0)) ∧
    (∀ v n, TypeConverter.convertToXLS "descriptive" v n = ("note", 0)) ∧
    (∀ v n, TypeConverter.convertToXLS "notes" v n = ("text", 0)) ∧
    (∀ v n, TypeConverter.convertToXLS "calc" v n = ("calculate", 0)) ∧
    (∀ v n, TypeConverter.convertToXLS "radio" v n =
      ("select_one " ++ TypeConverter.makeListName n, 1)) ∧
    (∀ v n, TypeConverter.convertToXLS "checkbox" v n =
      ("select_multiple " ++ TypeConverter.makeListName n, 1)) ∧
    (∀ v n, TypeConverter.convertToXLS "dropdown" v n =
      ("select_one " ++ TypeConverter.makeListName n, 1)) ∧
    (∀ t v n, t ∉ (["yesno", "descriptive", "notes", "calc", "radio", "checkbox", "dropdown"] :
        List String) →
      v ∈ (["date_dmy", "time", "number", "integer"] : List String) →
      TypeConverter.convertToXLS t v n =
        ((TypeConverter.convertFromTypeAndValidationLookup v).getD "", 0)) ∧
    (∀ t v n, t ∉ (["yesno", "descriptive", "notes", "calc", "radio", "checkbox", "dropdown"] :
        List String) →
      v ∉ (["date_dmy", "time", "number", "integer"] : List String) →
      TypeConverter.convertToXLS t v n = ("text", 0)) := by
  refine ⟨fun v n => rfl, fun v n => rfl, fun v n => rfl, fun v n => rfl,
    fun v n => rfl, fun v n => rfl, fun v n => rfl, fun t v n ht hv => ?_, fun t v n ht hv => ?_⟩
  · simp only [List.mem_cons, List.not_mem_nil, or_false, not_or] at ht
    obtain ⟨h1, h2, h3, h4, h5, h6, h7⟩ := ht
    simp only [List.mem_cons, List.not_mem_nil, or_false] at hv
    rcases hv with rfl | rfl | rfl | rfl
    · simp [TypeConverter.convertToXLS, TypeConverter.convertFromTypeLookup,
        TypeConverter.convertFromTypeWithChoicesLookup,
        TypeConverter.convertFromTypeAndValidationLookup, h1, h2, h3, h4, h5, h6, h7]
    · simp [TypeConverter.convertToXLS, TypeConverter.convertFromTypeLookup,
        TypeConverter.convertFromTypeWithChoicesLookup,
        TypeConverter.convertFromTypeAndValidationLookup, h1, h2, h3, h4, h5, h6, h7]
    · simp [TypeConverter.convertToXLS, TypeConverter.convertFromTypeLookup,
        TypeConverter.convertFromTypeWithChoicesLookup,
        TypeConverter.convertFromTypeAndValidationLookup, h1, h2, h3, h4, h5, h6, h7]
    · simp [TypeConverter.convertToXLS, TypeConverter.convertFromTypeLookup,
        TypeConverter.convertFromTypeWithChoicesLookup,
        TypeConverter.convertFromTypeAndValidationLookup, h1, h2, h3, h4, h5, h6, h7]
  · simp only [List.mem_cons, List.not_mem_nil, or_false, not_or] at ht hv
    obtain ⟨h1, h2, h3, h4, h5, h6, h7⟩ := ht
    obtain ⟨g1, g2, g3, g4⟩ := hv
    simp [TypeConverter.convertToXLS, TypeConverter.convertFromTypeLookup,
      TypeConverter.convertFromTypeWithChoicesLookup,
      TypeConverter.convertFromTypeAndValidationLookup, h1, h2, h3, h4, h5, h6, h7,
      g1, g2, g3, g4]

/-- C7 witness: the order-sensitive conjuncts applied at concrete types. -/
theorem claim_C7_witness :
    ("text" ∉ (["yesno", "descriptive", "notes", "calc", "radio", "checkbox", "dropdown"] :
        List String)) ∧
    TypeConverter.convertToXLS "text" "date_dmy" 0 = ("date", 0) ∧
    TypeConverter.convertToXLS "slider" "none" 3 = ("text", 0) := by
  refine ⟨by decide, ?_, ?_⟩
  · have h := claim_C7.2.2.2.2.2.2.2.1 "text" "date_dmy" 0 (by decide) (by decide)
    simpa using h
  · exact claim_C7.2.2.2.2.2.2.2.2 "slider" "none" 3 (by decide) (by decide)

/-- The seven recognized source headers in the relative order that yields
the claimed fixed output order. -/
def recognizedHeadersCanonical : List String :=
  ["Variable / Field Name", "Field Type", "Field Label", "Text Validation Min",
   "Branching Logic (Show field only if...)", "Required Field?", "Field Note"]

/-- The output header order claimed by the specification. -/
def fixedOutputHeaders : List String :=
  ["name", "type", "label", "constraint", "relevant", "required", "hint",
   "calculation", "default", "read_only"]

/-- C9 counterexample: with all recognized headers present but in reversed
input order, the survey header row follows the input order
(`hint, required, relevant, constraint, label, type, name, ...`), not the
fixed order the claim asserts. -/
theorem claim_C9_counterexample :
    Converter.convertHeaders recognizedHeadersCanonical.reverse [] =
      ["hint", "required", "relevant", "constraint", "label", "type", "name",
       "calculation", "default", "read_only"] ∧
    Converter.convertHeaders recognizedHeadersCanonical.reverse [] ≠ fixedOutputHeaders := by
  refine ⟨by decide, by decide⟩

/-- C9 (amended): the survey header row lists the canonical names of the
recognized input headers in the order those headers appear in the input
(unrecognized headers dropped), then `calculation, default, read_only`,
then the pass-through columns; when the recognized headers appear in the
relative order name, type, label, min, branching-logic, required, note the
result is exactly the claimed fixed order, and for any input order the
result is a permutation of it. -/
theorem claim_C9_amended :
    (∀ cs : List String,
      Converter.convertHeaders recognizedHeadersCanonical cs = fixedOutputHeaders ++ cs) ∧
    (∀ hs extra cs : List String, hs.Perm (recognizedHeadersCanonical ++ extra) →
      (∀ e ∈ extra, HeaderConverter.headersConversionLookup e = none) →
      (Converter.convertHeaders hs cs).Perm (fixedOutputHeaders ++ cs)) := by
  constructor
  · intro cs; rfl
  · intro hs extra cs hperm hextra
    have h1 : (hs.filterMap HeaderConverter.headersConversionLookup).Perm
        ((recognizedHeadersCanonical ++ extra).filterMap HeaderConverter.headersConversionLookup) :=
      hperm.filterMap _
    rw [List.filterMap_append] at h1
    have h2 : extra.filterMap HeaderConverter.headersConversionLookup = [] := by
      rw [List.filterMap_eq_nil_iff]; exact hextra
    rw [h2, List.append_nil] at h1
    have h3 := h1.append_right (Converter.defaultHeaders ++ cs)
    simpa [Converter.convertHeaders, List.append_assoc] using h3

/-- C9 witness: the permutation conjunct applied to a shuffled header set
with one unrecognized extra column. -/
theorem claim_C9_amended_witness :
    (("Form Name" :: recognizedHeadersCanonical.reverse).Perm
      (recognizedHeadersCanonical ++ ["Form Name"])) ∧
    HeaderConverter.headersConversionLookup "Form Name" = none ∧
    (Converter.convertHeaders ("Form Name" :: recognizedHeadersCanonical.reverse)
      ["Extra"]).Perm (fixedOutputHeaders ++ ["Extra"]) :=
  ⟨by decide, by decide,
    claim_C9_amended.2 _ ["Form Name"] ["Extra"] (by decide) (by decide)⟩

theorem takeAtMost2_one (p : Char → Bool) (c y : Char) (ys : List Char)
    (hc : p c = true) (hy : p y = false) :
    takeAtMost2 p (c :: y :: ys) = ([c], y :: ys) := by
  simp [takeAtMost2, hc, hy]

theorem takeAtMost2_two (p : Char → Bool) (c1 c2 : Char) (ys : List Char)
    (h1 : p c1 = true) (h2 : p c2 = true) :
    takeAtMost2 p (c1 :: c2 :: ys) = ([c1, c2], ys) := by
  simp [takeAtMost2, h1, h2]

theorem scalarOp_not_space (c : Char) (h : isScalarOpChar c = true) : isSpaceChar c = false := by
  simp only [isScalarOpChar, Bool.or_eq_true, decide_eq_true_eq] at h
  rcases h with ((rfl | rfl) | rfl) | rfl <;> decide


theorem matchScalar_build (field op value : List Char)
    (hf : field ≠ []) (hfw : ∀ c ∈ field, isWordChar c = true)
    (hvw : ∀ c ∈ value, isWordChar c = true)
    (hopne : op ≠ []) (hops : ∀ c ∈ op, isScalarOpChar c = true)
    (hopt2 : takeAtMost2 isScalarOpChar (op ++ (' ' :: ('\x27' :: (value ++ ['\x27'])))) =
      (op, ' ' :: ('\x27' :: (value ++ ['\x27'])))) :
    matchScalar ('[' :: (field ++ (']' :: (' ' :: (op ++ (' ' :: ('\x27' :: (value ++ ['\x27'])))))))) =
      some ⟨field, op, ['\x27'], value, []⟩ := by
  obtain ⟨oph, opt, rfl⟩ : ∃ h t, op = h :: t := by
    cases op with
    | nil => exact absurd rfl hopne
    | cons h t => exact ⟨h, t, rfl⟩
  have hsp : isSpaceChar oph = false := scalarOp_not_space oph (hops oph (by simp))
  simp only [matchScalar]
  rw [takeWhile_append_stop isWordChar field ']' _ hfw (by decide),
    dropWhile_append_stop isWordChar field ']' _ hfw (by decide)]
  simp only [if_neg hf, if_pos rfl, List.dropWhile_cons]
  rw [show isSpaceChar ' ' = true from by decide]
  simp only [if_true, List.cons_append, List.dropWhile_cons, hsp, Bool.false_eq_true, if_false]
  rw [show (oph :: (opt ++ (' ' :: ('\x27' :: (value ++ ['\x27']))))) =
    ((oph :: opt) ++ (' ' :: ('\x27' :: (value ++ ['\x27'])))) from rfl, hopt2]
  simp only [List.dropWhile_cons]
  rw [show isSpaceChar ' ' = true from by decide]
  simp only [if_true, List.dropWhile_cons]
  rw [show isSpaceChar '\x27' = false from by decide]
  simp only [Bool.false_eq_true, if_false, takeOptQuote]
  rw [show isQuoteChar '\x27' = true from by decide]
  simp only [if_true]
  rw [takeWhile_append_stop isWordChar value '\x27' [] hvw (by decide),
    dropWhile_append_stop isWordChar value '\x27' [] hvw (by decide)]
  simp only [skipOptQuote]
  rw [show isQuoteChar '\x27' = true from by decide]
  simp

/-- C1 counterexample: the claim asserts `[age] > '18'` is rewritten with
the quotes stripped, to `${age} > 18`; the translator actually re-emits the
opening quote on both sides of the literal, producing `${age} > '18'`. -/
theorem claim_C1_counterexample :
    RelevantConverter.convertToXLS "[age] > \x2718\x27" = some "$\x7bage\x7d > \x2718\x27" ∧
    RelevantConverter.convertToXLS "[age] > \x2718\x27" ≠ some "$\x7bage\x7d > 18" := by
  refine ⟨by decide, by decide⟩

/-- C1 (amended): a scalar comparison `[field] OP 'value'` is rewritten to
`${field} OP 'value'`: the reference becomes `${field}`, the comparison
operator is preserved verbatim with one space on each side, and the opening
quote of the literal is preserved, re-emitted on both sides of the literal
(quotes are not stripped). -/
theorem claim_C1_amended :
    ∀ (field op value : List Char),
      field ≠ [] → (∀ c ∈ field, isWordChar c = true) →
      value ≠ [] → (∀ c ∈ value, isWordChar c = true) →
      op ∈ ([['='], ['!', '='], ['<'], ['>'], ['<', '='], ['>', '='], ['<', '>']] :
        List (List Char)) →
      scalarSub ('[' :: (field ++ (']' :: (' ' :: (op ++ (' ' :: ('\x27' :: (value ++ ['\x27'])))))))) =
        '$' :: ('\x7b' :: (field ++ ('\x7d' :: (' ' :: (op ++ (' ' :: ('\x27' :: (value ++ ['\x27'])))))))) := by
  intro field op value hf hfw _hv hvw hop
  simp only [List.mem_cons, List.not_mem_nil, or_false] at hop
  have hops : ∀ c ∈ op, isScalarOpChar c = true := by
    rcases hop with rfl | rfl | rfl | rfl | rfl | rfl | rfl <;> decide
  have hopne : op ≠ [] := by
    rcases hop with rfl | rfl | rfl | rfl | rfl | rfl | rfl <;> decide
  have hopt2 : takeAtMost2 isScalarOpChar (op ++ (' ' :: ('\x27' :: (value ++ ['\x27'])))) =
      (op, ' ' :: ('\x27' :: (value ++ ['\x27']))) := by
    rcases hop with rfl | rfl | rfl | rfl | rfl | rfl | rfl
    · exact takeAtMost2_one _ _ _ _ (by decide) (by decide)
    · exact takeAtMost2_two _ _ _ _ (by decide) (by decide)
    · exact takeAtMost2_one _ _ _ _ (by decide) (by decide)
    · exact takeAtMost2_one _ _ _ _ (by decide) (by decide)
    · exact takeAtMost2_two _ _ _ _ (by decide) (by decide)
    · exact takeAtMost2_two _ _ _ _ (by decide) (by decide)
    · exact takeAtMost2_two _ _ _ _ (by decide) (by decide)
  have hm := matchScalar_build field op value hf hfw hvw hopne hops hopt2
  simp only [scalarSub, List.length_cons, scalarSubGo, hm, scalarSubGo_nil, scalarReplacement]
  simp

/-- C1 witness: the amended theorem applied at `[age] > '18'`. -/
theorem claim_C1_witness :
    ("age".data ≠ [] ∧ "18".data ≠ []) ∧
    scalarSub ('[' :: ("age".data ++ (']' :: (' ' :: (['>'] ++ (' ' :: ('\x27' :: ("18".data ++ ['\x27'])))))))) =
      '$' :: ('\x7b' :: ("age".data ++ ('\x7d' :: (' ' :: (['>'] ++ (' ' :: ('\x27' :: ("18".data ++ ['\x27'])))))))) :=
  ⟨⟨by decide, by decide⟩,
    claim_C1_amended "age".data ['>'] "18".data (by decide) (by decide) (by decide) (by decide)
      (by decide)⟩

theorem arrayOp_not_space (c : Char) (h : isArrayOpChar c = true) : isSpaceChar c = false := by
  simp only [isArrayOpChar, Bool.or_eq_true, decide_eq_true_eq] at h
  rcases h with rfl | rfl <;> decide

theorem not_bracket_of_word (l : List Char) (hw : ∀ c ∈ l, isWordChar c = true) : '[' ∉ l :=
  fun hm => absurd (hw '[' hm) (by decide)

theorem matchArray_build (a it op value : List Char)
    (ha : a ≠ []) (haw : ∀ c ∈ a, isWordChar c = true)
    (hi : it ≠ []) (hiw : ∀ c ∈ it, isWordChar c = true)
    (hvw : ∀ c ∈ value, isWordChar c = true)
    (hopne : op ≠ []) (hops : ∀ c ∈ op, isArrayOpChar c = true)
    (hopt2 : takeAtMost2 isArrayOpChar (op ++ (' ' :: ('\x27' :: (value ++ ['\x27'])))) =
      (op, ' ' :: ('\x27' :: (value ++ ['\x27'])))) :
    matchArray ('[' :: (a ++ ('(' :: (it ++ (')' :: (']' :: (' ' :: (op ++ (' ' :: ('\x27' :: (value ++ ['\x27'])))))))))))
      = some ⟨a, it, op, value, []⟩ := by
  obtain ⟨oph, opt, rfl⟩ : ∃ h t, op = h :: t := by
    cases op with
    | nil => exact absurd rfl hopne
    | cons h t => exact ⟨h, t, rfl⟩
  have hsp : isSpaceChar oph = false := arrayOp_not_space oph (hops oph (by simp))
  simp only [matchArray]
  rw [takeWhile_append_stop isWordChar a '(' _ haw (by decide),
    dropWhile_append_stop isWordChar a '(' _ haw (by decide)]
  simp only [if_neg ha, if_pos rfl]
  rw [takeWhile_append_stop isWordChar it ')' _ hiw (by decide),
    dropWhile_append_stop isWordChar it ')' _ hiw (by decide)]
  simp only [if_neg hi, if_pos (And.intro rfl rfl), List.dropWhile_cons]
  rw [show isSpaceChar ' ' = true from by decide]
  simp only [if_true, List.cons_append, List.dropWhile_cons, hsp, Bool.false_eq_true, if_false]
  rw [show (oph :: (opt ++ (' ' :: ('\x27' :: (value ++ ['\x27']))))) =
    ((oph :: opt) ++ (' ' :: ('\x27' :: (value ++ ['\x27'])))) from rfl, hopt2]
  simp only [List.dropWhile_cons]
  rw [show isSpaceChar ' ' = true from by decide]
  simp only [if_true, List.dropWhile_cons]
  rw [show isSpaceChar '\x27' = false from by decide]
  simp only [Bool.false_eq_true, if_false, skipOptQuote]
  rw [show isQuoteChar '\x27' = true from by decide]
  simp only [if_true]
  rw [takeWhile_append_stop isWordChar value '\x27' [] hvw (by decide),
    dropWhile_append_stop isWordChar value '\x27' [] hvw (by decide)]
  simp [isQuoteChar]

theorem findArrayGo_eq_none (l : List Char) (h : '[' ∉ l) : findArrayGo l = none := by
  induction l with
  | nil => rfl
  | cons c rest ih =>
    have hc : ¬ c = '[' := fun e => h (by simp [e])
    simp only [findArrayGo, matchArray, if_neg hc]
    rw [ih (fun hm => h (by simp [hm]))]
    rfl

theorem getLast?_ne_none (l : List Char) (h : l ≠ []) : ∃ v, l.getLast? = some v := by
  cases l with
  | nil => exact absurd rfl h
  | cons c rest => exact ⟨(c :: rest).getLast (by simp), List.getLast?_eq_getLast _ _⟩

theorem convertArraysGo_no_bracket (fuel : Nat) (l : List Char) (h : '[' ∉ l) :
    convertArraysGo fuel l = some l := by
  cases fuel with
  | zero => rfl
  | succ n => simp only [convertArraysGo, findArrayGo_eq_none l h]

theorem bracket_not_mem_arraySubstitute (a it : List Char)
    (haw : ∀ c ∈ a, isWordChar c = true) (hiw : ∀ c ∈ it, isWordChar c = true) :
    '[' ∉ arraySubstitute a it := by
  intro hm
  simp only [arraySubstitute, List.mem_append] at hm
  rcases hm with (((h | h) | h) | h) | h
  · exact absurd h (by decide)
  · exact not_bracket_of_word a haw h
  · exact absurd h (by decide)
  · exact not_bracket_of_word it hiw h
  · exact absurd h (by decide)

theorem bracket_not_mem_notWrap (a it : List Char)
    (haw : ∀ c ∈ a, isWordChar c = true) (hiw : ∀ c ∈ it, isWordChar c = true) :
    '[' ∉ "not(".data ++ arraySubstitute a it ++ ")".data := by
  intro hm
  simp only [List.mem_append] at hm
  rcases hm with (h | h) | h
  · exact absurd h (by decide)
  · exact bracket_not_mem_arraySubstitute a it haw hiw h
  · exact absurd h (by decide)

/-- C2: an array-membership reference `[field(option)] OP 'value'` is
rewritten to `selected('field','option')`, wrapped in `not(...)` exactly
when the operator is `=` and the value's final character is `0`, or the
operator is `!=` and the value's final character is `1`; only the final
character of the literal decides the sense.  In particular
`[race(3)] = '1'` gives `selected('race','3')` while `[race(3)] = '0'` and
`[race(3)] != '1'` give `not(selected('race','3'))`. -/
theorem claim_C2 :
    (∀ (a it value op : List Char),
      a ≠ [] → (∀ c ∈ a, isWordChar c = true) →
      it ≠ [] → (∀ c ∈ it, isWordChar c = true) →
      value ≠ [] → (∀ c ∈ value, isWordChar c = true) →
      (op = ['='] ∨ op = ['!', '=']) →
      convertArrays
          ('[' :: (a ++ ('(' :: (it ++ (')' :: (']' :: (' ' :: (op ++ (' ' :: ('\x27' :: (value ++ ['\x27'])))))))))))
        = some (if (op = ['='] ∧ value.getLast? = some '0') ∨
              (op = ['!', '='] ∧ value.getLast? = some '1')
            then "not(".data ++ arraySubstitute a it ++ ")".data
            else arraySubstitute a it)) ∧
    RelevantConverter.convertToXLS "[race(3)] = \x271\x27" = some "selected(\x27race\x27,\x273\x27)" ∧
    RelevantConverter.convertToXLS "[race(3)] = \x270\x27" =
      some "not(selected(\x27race\x27,\x273\x27))" ∧
    RelevantConverter.convertToXLS "[race(3)] != \x271\x27" =
      some "not(selected(\x27race\x27,\x273\x27))" := by
  refine ⟨fun a it value op ha haw hi hiw hv hvw hop => ?_, by decide, by decide, by decide⟩
  have hops : ∀ c ∈ op, isArrayOpChar c = true := by
    rcases hop with rfl | rfl <;> decide
  have hopne : op ≠ [] := by
    rcases hop with rfl | rfl <;> decide
  have hopt2 : takeAtMost2 isArrayOpChar (op ++ (' ' :: ('\x27' :: (value ++ ['\x27'])))) =
      (op, ' ' :: ('\x27' :: (value ++ ['\x27']))) := by
    rcases hop with rfl | rfl
    · exact takeAtMost2_one _ _ _ _ (by decide) (by decide)
    · exact takeAtMost2_two _ _ _ _ (by decide) (by decide)
  have hm := matchArray_build a it op value ha haw hi hiw hvw hopne hops hopt2
  have hfind : findArrayGo
      ('[' :: (a ++ ('(' :: (it ++ (')' :: (']' :: (' ' :: (op ++ (' ' :: ('\x27' :: (value ++ ['\x27'])))))))))))
      = some ([], ⟨a, it, op, value, []⟩) := by
    simp only [findArrayGo, hm]
  obtain ⟨v, hlast⟩ := getLast?_ne_none value hv
  simp only [convertArrays, List.length_cons, convertArraysGo, hfind, hlast]
  simp only [List.nil_append, List.append_nil]
  have hX1 : findArrayGo ('n' :: 'o' :: 't' :: '(' :: (arraySubstitute a it ++ [')'])) = none :=
    findArrayGo_eq_none _ (by simpa using bracket_not_mem_notWrap a it haw hiw)
  have hX2 : findArrayGo (arraySubstitute a it) = none :=
    findArrayGo_eq_none _ (bracket_not_mem_arraySubstitute a it haw hiw)
  rcases hop with rfl | rfl
  · by_cases hv0 : v = '0'
    · subst hv0
      simp [hX1, hlast]
    · simp [hX2, hlast, hv0]
  · by_cases hv1 : v = '1'
    · subst hv1
      simp [hX1, hlast]
    · simp [hX2, hlast, hv1]

/-- C2 witness: the general rewrite applied at `[race(3)] = '0'`. -/
theorem claim_C2_witness :
    ("race".data ≠ [] ∧ "3".data ≠ [] ∧ "0".data ≠ []) ∧
    convertArrays
        ('[' :: ("race".data ++ ('(' :: ("3".data ++ (')' :: (']' :: (' ' :: (['='] ++ (' ' :: ('\x27' :: ("0".data ++ ['\x27'])))))))))))
      = some ("not(".data ++ arraySubstitute "race".data "3".data ++ ")".data) := by
  refine ⟨⟨by decide, by decide, by decide⟩, ?_⟩
  have h := claim_C2.1 "race".data "3".data "0".data ['='] (by decide) (by decide) (by decide)
    (by decide) (by decide) (by decide) (Or.inl rfl)
  rw [h]
  decide

/-- Characterization of `RowConverter.convertToXLS` over the standard
headers, no pass-through columns, and a named 13-cell row. -/
theorem rowConverter_std (h2t : String → String) (n : Nat)
    (nm fm sec ty lb ch hn vl mn mx br rq an : String) (hnm : nm ≠ "") :
    RowConverter.convertToXLS h2t stdHeaders stdConvertedHeaders n []
        [nm, fm, sec, ty, lb, ch, hn, vl, mn, mx, br, rq, an] =
      (RelevantConverter.convertToXLS br).bind (fun rel =>
        (ChoicesConverter.convertToXLS (TypeConverter.convertToXLS ty vl n).1 ch).bind (fun chs =>
          some ⟨some [nm, (TypeConverter.convertToXLS ty vl n).1,
            LabelConverter.convertToXLS h2t lb nm, hn,
            ConstraintConverter.convertToXLS mn mx, rel,
            RequiredConverter.convertToXLS rq,
            CalculationsConverter.convertToXLS (TypeConverter.convertToXLS ty vl n).1 ch,
            DeafultsConverter.convertToXLS an,
            ReadOnlyConverter.convertToXLS an], chs, (TypeConverter.convertToXLS ty vl n).2⟩)) := by
  unfold RowConverter.convertToXLS
  simp only [RowConverter.processedHeaders, getRedcapVal, headerDictGet, stdHeaders,
    stdConvertedHeaders, List.mapM_cons, List.mapM_nil, List.length_cons, List.length_nil,
    List.getD, List.getElem?_cons_zero, List.getElem?_cons_succ]
  simp only [List.foldlM, applyWrite, setXLSVal, headerDictGet]
  simp [hnm, NameConverter.convertToXLS, HintsConverter.convertToXLS]

/-- An empty-field-name row over the standard headers yields the empty
sentinel: no question row, no choices, no list increment. -/
theorem rowConverter_std_empty (h2t : String → String) (n : Nat)
    (fm sec ty lb ch hn vl mn mx br rq an : String) :
    RowConverter.convertToXLS h2t stdHeaders stdConvertedHeaders n []
        ["", fm, sec, ty, lb, ch, hn, vl, mn, mx, br, rq, an] =
      some ⟨none, [], 0⟩ := by
  unfold RowConverter.convertToXLS
  simp only [RowConverter.processedHeaders, getRedcapVal, headerDictGet, stdHeaders,
    List.mapM_cons, List.mapM_nil, List.length_cons, List.length_nil,
    List.getD, List.getElem?_cons_zero, List.getElem?_cons_succ]
  simp

/-- C10 (implicit): the required output cell is `yes` exactly when the raw
`Required Field?` cell is the exact lowercase string `y`, and `no` in every
other case (`Y`, `yes`, empty, anything else); and in any successfully
converted non-empty row over the standard headers the required cell carries
exactly that converter output, so it is never left empty. -/
theorem claim_C10 :
    (∀ s : String, RequiredConverter.convertToXLS s = "yes" ↔ s = "y") ∧
    (∀ s : String, s ≠ "y" → RequiredConverter.convertToXLS s = "no") ∧
    (∀ s : String, RequiredConverter.convertToXLS s ≠ "") ∧
    RequiredConverter.convertToXLS "Y" = "no" ∧
    RequiredConverter.convertToXLS "yes" = "no" ∧
    RequiredConverter.convertToXLS "" = "no" ∧
    (∀ (h2t : String → String) (n : Nat)
      (nm fm sec ty lb ch hn vl mn mx br rq an : String) (res : RowResult) (q : List String),
      RowConverter.convertToXLS h2t stdHeaders stdConvertedHeaders n []
          [nm, fm, sec, ty, lb, ch, hn, vl, mn, mx, br, rq, an] = some res →
      res.question = some q →
      q.getD 6 "" = RequiredConverter.convertToXLS rq) := by
  refine ⟨fun s => ?_, fun s h => ?_, fun s => ?_, by decide, by decide, by decide,
    fun h2t n nm fm sec ty lb ch hn vl mn mx br rq an res q hres hq => ?_⟩
  · unfold RequiredConverter.convertToXLS
    by_cases h : s = "y" <;> simp [h]
  · simp [RequiredConverter.convertToXLS, h]
  · unfold RequiredConverter.convertToXLS
    by_cases h : s = "y" <;> simp [h]
  · by_cases hnm : nm = ""
    · subst hnm
      rw [rowConverter_std_empty] at hres
      obtain rfl : res = ⟨none, [], 0⟩ := by simpa using hres.symm
      exact Option.noConfusion hq
    · rw [rowConverter_std h2t n nm fm sec ty lb ch hn vl mn mx br rq an hnm] at hres
      cases hrel : RelevantConverter.convertToXLS br with
      | none => simp [hrel] at hres
      | some rel =>
        cases hch : ChoicesConverter.convertToXLS (TypeConverter.convertToXLS ty vl n).1 ch with
        | none => simp [hrel, hch] at hres
        | some chs =>
          simp only [hrel, hch, Option.bind] at hres
          obtain rfl : res = ⟨some [nm, (TypeConverter.convertToXLS ty vl n).1,
              LabelConverter.convertToXLS h2t lb nm, hn,
              ConstraintConverter.convertToXLS mn mx, rel,
              RequiredConverter.convertToXLS rq,
              CalculationsConverter.convertToXLS (TypeConverter.convertToXLS ty vl n).1 ch,
              DeafultsConverter.convertToXLS an,
              ReadOnlyConverter.convertToXLS an], chs, (TypeConverter.convertToXLS ty vl n).2⟩ :=
            (Option.some.inj hres).symm
          obtain rfl : q = [nm, (TypeConverter.convertToXLS ty vl n).1,
              LabelConverter.convertToXLS h2t lb nm, hn,
              ConstraintConverter.convertToXLS mn mx, rel,
              RequiredConverter.convertToXLS rq,
              CalculationsConverter.convertToXLS (TypeConverter.convertToXLS ty vl n).1 ch,
              DeafultsConverter.convertToXLS an,
              ReadOnlyConverter.convertToXLS an] := (Option.some.inj hq).symm
          simp [List.getD]

/-- C10 witness: the row-level conjunct applied to a concrete row with
`Required Field?` cell `Y` (not lowercase `y`), whose required output cell
is `no`. -/
theorem claim_C10_witness :
    RowConverter.convertToXLS (fun s => s) stdHeaders stdConvertedHeaders 0 []
        ["f1", "", "", "text", "", "", "", "", "", "", "", "Y", ""] =
      some ⟨some ["f1", "text", "f1", "", "", "", "no", "", "", ""], [], 0⟩ ∧
    (["f1", "text", "f1", "", "", "", "no", "", "", ""] : List String).getD 6 "" =
      RequiredConverter.convertToXLS "Y" := by
  refine ⟨by decide, ?_⟩
  exact claim_C10.2.2.2.2.2.2 (fun s => s) 0 "f1" "" "" "text" "" "" "" "" "" "" "" "Y" ""
    ⟨some ["f1", "text", "f1", "", "", "", "no", "", "", ""], [], 0⟩
    ["f1", "text", "f1", "", "", "", "no", "", "", ""] (by decide) rfl

/-- A row with empty field-name cell and empty Section Header cell is a
complete no-op for the `_convertContent` loop state. -/
theorem step_empty_noop (h2t : String → String) (st : Converter.CState)
    (fm ty lb ch hn vl mn mx br rq an : String) :
    Converter.step h2t stdHeaders stdConvertedHeaders [] st
        ["", fm, "", ty, lb, ch, hn, vl, mn, mx, br, rq, an] = some st := by
  unfold Converter.step
  rw [if_neg (by simp : ¬ (["", fm, "", ty, lb, ch, hn, vl, mn, mx, br, rq, an] : List String) = [])]
  rw [show indexOfFirst stdHeaders "Section Header" = some 2 from rfl]
  simp only [Option.bind_eq_bind, Option.some_bind, List.getElem?_cons_succ,
    List.getElem?_cons_zero]
  simp only [ne_eq, not_true_eq_false, if_false,
    rowConverter_std_empty h2t st.listNumber fm "" ty lb ch hn vl mn mx br rq an,
    Option.some_bind]

/-- C8 counterexample: the claim says a row with an empty field-name cell
emits zero output rows regardless of its other cells, including Section
Header; but an empty-name row whose Section Header cell is `Part A` makes
the conversion emit a `begin group` row (and the closing `end group` row). -/
theorem claim_C8_counterexample :
    Converter.convertContent (fun s => s) stdHeaders []
        [["", "", "Part A", "", "", "", "", "", "", "", "", "", ""]] =
      some ([["group_1", "begin group", "Part A", "", "", "", "", "", "", ""],
             ["", "end group", "", "", "", "", "", "", "", ""]], Converter.defaultChoices) ∧
    (Converter.convertContent (fun s => s) stdHeaders []
        [["", "", "Part A", "", "", "", "", "", "", "", "", "", ""]]).map Prod.fst ≠
      some [] := by
  refine ⟨by decide, by decide⟩

/-- C8 (amended): a row whose field-name cell is empty yields no question
row, no choice entries and no list increment, and — provided its Section
Header cell is also empty — is dropped from the conversion entirely (the
loop state is unchanged, so the output is as if the row were deleted); a
non-empty Section Header cell on such a row still triggers the synthetic
group marker rows. -/
theorem claim_C8_amended :
    (∀ (h2t : String → String) (n : Nat) (fm sec ty lb ch hn vl mn mx br rq an : String),
      RowConverter.convertToXLS h2t stdHeaders stdConvertedHeaders n []
          ["", fm, sec, ty, lb, ch, hn, vl, mn, mx, br, rq, an] = some ⟨none, [], 0⟩) ∧
    (∀ (h2t : String → String) (st : Converter.CState) (pre post : List (List String))
      (fm ty lb ch hn vl mn mx br rq an : String),
      Converter.convertRows h2t stdHeaders stdConvertedHeaders [] st
          (pre ++ ["", fm, "", ty, lb, ch, hn, vl, mn, mx, br, rq, an] :: post) =
        Converter.convertRows h2t stdHeaders stdConvertedHeaders [] st (pre ++ post)) := by
  constructor
  · intro h2t n fm sec ty lb ch hn vl mn mx br rq an
    exact rowConverter_std_empty h2t n fm sec ty lb ch hn vl mn mx br rq an
  · intro h2t st pre post fm ty lb ch hn vl mn mx br rq an
    induction pre generalizing st with
    | nil =>
      simp only [List.nil_append, Converter.convertRows]
      rw [step_empty_noop h2t st fm ty lb ch hn vl mn mx br rq an]
      simp only [Option.some_bind]
    | cons p pre' ih =>
      simp only [List.cons_append, Converter.convertRows]
      cases hstep : Converter.step h2t stdHeaders stdConvertedHeaders [] st p with
      | none => rfl
      | some st' =>
        simp only [Option.some_bind]
        exact ih st'

theorem except_ok_bind {α β : Type} (a : α) (f : α → Except ConvError β) :
    (Except.ok a : Except ConvError α) >>= f = f a := rfl

theorem except_error_bind {α β : Type} (e : ConvError) (f : α → Except ConvError β) :
    (Except.error e : Except ConvError α) >>= f = Except.error e := rfl

/-- C6: in multi-form split mode (`zip_xls`) a row whose branching-logic
expression (or, for a `calc` field, its calculation expression) references a
field not yet seen within the current form makes the run fail with the
cross-form-reference error carrying that row's 0-based index and content —
the error aborts the whole run; in single-form mode (`single_xls`) the input
is never split and the cross-form error is never raised, whatever the
expressions reference. -/
theorem claim_C6 :
    (∀ content : RedcapContent, Converter.formsOf "single_xls" content = .ok [content]) ∧
    (∀ (h2t : String → String) (content : RedcapContent) (cols : List String)
      (i : Nat) (row : List String),
      Converter.run h2t content "single_xls" cols ≠ .error (.crossForm i row)) ∧
    (∀ (headers : List String) (ix : Converter.SepIdx) (i : Nat) (st : Converter.SepState)
      (row : List String) (fn : String) (vars : List String) (v : String),
      row ≠ [] → row[ix.formIdx]? = some fn →
      Converter.sepRowVars ix row = .ok vars → v ∈ vars →
      v ∉ (if fn ≠ st.currentName ∧ fn ≠ "" then ([] : List String) else st.currentVars) →
      Converter.sepStep headers ix i st row = .error (.crossForm i row)) ∧
    (∀ (h2t : String → String) (content : RedcapContent) (e : ConvError),
      Converter.separateForms content.headers content.questions = .error e →
      Converter.run h2t content "zip_xls" [] = .error e) ∧
    Converter.separateForms stdHeaders
        [["a", "f1", "", "text", "", "", "", "", "", "", "", "", ""],
         ["b", "f2", "", "text", "", "", "", "", "", "", "[a] = \x271\x27", "", ""]] =
      .error (.crossForm 1
        ["b", "f2", "", "text", "", "", "", "", "", "", "[a] = \x271\x27", "", ""]) := by
  refine ⟨fun content => by simp [Converter.formsOf], ?_, ?_, ?_, by decide⟩
  · intro h2t content cols i row
    unfold Converter.run
    cases hf : cols.find? (fun c => decide (c ∉ content.headers)) with
    | some c => simp
    | none =>
      simp only [Converter.formsOf, if_neg (by decide : ¬ ("single_xls" : String) = "zip_xls"),
        except_ok_bind, liftO]
      cases hc : Converter.convert h2t cols [content] with
      | none => simp [hc]
      | some out => simp [hc]
  · intro headers ix i st row fn vars v hrow hfn hvars hv hnot
    unfold Converter.sepStep
    rw [if_neg hrow]
    simp only [hfn, liftO, except_ok_bind, hvars]
    by_cases hcond : fn ≠ st.currentName ∧ fn ≠ ""
    · rw [if_pos hcond] at hnot ⊢
      rw [if_pos (List.any_eq_true.mpr ⟨v, hv, decide_eq_true hnot⟩)]
    · rw [if_neg hcond] at hnot ⊢
      rw [if_pos (List.any_eq_true.mpr ⟨v, hv, decide_eq_true hnot⟩)]
  · intro h2t content e herr
    unfold Converter.run
    simp only [List.find?_nil]
    simp only [Converter.formsOf, herr]
    simp only [if_pos trivial, ite_true, except_error_bind]

/-- C6 witness: the step-level conjunct applied to the second row of a
two-form input whose branching logic references a field of the first
form. -/
theorem claim_C6_witness :
    ((["b", "f2", "", "text", "", "", "", "", "", "", "[a] = \x271\x27", "", ""] : List String) ≠ []) ∧
    Converter.sepRowVars ⟨0, 3, 10, 5, 1⟩
      ["b", "f2", "", "text", "", "", "", "", "", "", "[a] = \x271\x27", "", ""] = .ok ["a"] ∧
    Converter.sepStep stdHeaders ⟨0, 3, 10, 5, 1⟩ 1
        ⟨[], "f1", [["a", "f1", "", "text", "", "", "", "", "", "", "", "", ""]], ["a"]⟩
        ["b", "f2", "", "text", "", "", "", "", "", "", "[a] = \x271\x27", "", ""] =
      .error (.crossForm 1 ["b", "f2", "", "text", "", "", "", "", "", "", "[a] = \x271\x27", "", ""]) :=
  ⟨by decide, by decide,
    claim_C6.2.2.1 stdHeaders ⟨0, 3, 10, 5, 1⟩ 1
      ⟨[], "f1", [["a", "f1", "", "text", "", "", "", "", "", "", "", "", ""]], ["a"]⟩
      ["b", "f2", "", "text", "", "", "", "", "", "", "[a] = \x271\x27", "", ""] "f2" ["a"] "a"
      (by decide) (by decide) (by decide) (by decide) (by decide)⟩

theorem indexOfFirst_eq_none_iff {α : Type} [DecidableEq α] :
    ∀ (l : List α) (a : α), indexOfFirst l a = none ↔ a ∉ l
  | [], a => by simp [indexOfFirst]
  | x :: rest, a => by
    by_cases hx : x = a
    · subst hx
      simp [indexOfFirst]
    · simp only [indexOfFirst, if_neg hx, List.mem_cons, Option.map_eq_none']
      rw [indexOfFirst_eq_none_iff rest a]
      constructor
      · rintro h (rfl | hm)
        · exact hx rfl
        · exact h hm
      · intro h hm
        exact h (Or.inr hm)

theorem indexOfFirst_mem {α : Type} [DecidableEq α] (l : List α) (a : α) (k : Nat)
    (h : indexOfFirst l a = some k) : a ∈ l := by
  by_contra hmem
  rw [← indexOfFirst_eq_none_iff] at hmem
  rw [h] at hmem
  exact Option.noConfusion hmem

theorem indexOfFirst_get {α : Type} [DecidableEq α] :
    ∀ (l : List α) (a : α) (k : Nat), indexOfFirst l a = some k → l[k]? = some a
  | [], _, _, h => Option.noConfusion h
  | x :: rest, a, k, h => by
    by_cases hx : x = a
    · subst hx
      have h2 : some 0 = some k := by simpa [indexOfFirst] using h
      obtain rfl : k = 0 := (Option.some.inj h2).symm
      simp
    · simp only [indexOfFirst, if_neg hx] at h
      cases hr : indexOfFirst rest a with
      | none => rw [hr] at h; exact Option.noConfusion h
      | some j =>
        rw [hr] at h
        have h2 : some (j + 1) = some k := by simpa using h
        obtain rfl : k = j + 1 := (Option.some.inj h2).symm
        rw [List.getElem?_cons_succ]
        exact indexOfFirst_get rest a j hr

theorem mapM_map_option {α β γ : Type} (f : α → Option β) (g : β → γ) (l : List α) :
    l.mapM (fun x => (f x).map g) = (l.mapM f).map (List.map g) := by
  induction l with
  | nil => rfl
  | cons a t ih =>
    simp only [List.mapM_cons, ih]
    cases f a with
    | none => rfl
    | some b =>
      cases t.mapM f with
      | none => rfl
      | some bs => rfl

theorem choicesConverter_pairs (t c : String) (ht : t ≠ "calculate")
    (pairs : List (String × String)) (hp : choicesPairs c = some pairs) :
    ChoicesConverter.convertToXLS t c =
      some (pairs.map (fun p => XLSChoice.mk (ChoicesConverter.extractListName t) p.1 p.2)) := by
  unfold ChoicesConverter.convertToXLS
  rw [if_pos ht]
  unfold choicesPairs at hp
  rw [show (fun ch => (ChoicesConverter.splitChoice ch).map
      (fun p => XLSChoice.mk (ChoicesConverter.extractListName t) p.1 p.2)) =
    (fun ch => (ChoicesConverter.splitChoice ch).map
      (fun p => XLSChoice.mk (ChoicesConverter.extractListName t) p.1 p.2)) from rfl]
  rw [mapM_map_option ChoicesConverter.splitChoice
    (fun p => XLSChoice.mk (ChoicesConverter.extractListName t) p.1 p.2), hp]
  rfl

theorem typeConverter_choiceBody (ty : String) (body : String)
    (hlook : TypeConverter.convertFromTypeWithChoicesLookup ty = some body) :
    body = "select_one " ∨ body = "select_multiple " := by
  unfold TypeConverter.convertFromTypeWithChoicesLookup at hlook
  split_ifs at hlook
  · exact Or.inl (Option.some.inj hlook).symm
  · exact Or.inr (Option.some.inj hlook).symm
  · exact Or.inl (Option.some.inj hlook).symm

theorem typeConverter_choice (ty v : String) (n : Nat) (body : String)
    (hlook : TypeConverter.convertFromTypeWithChoicesLookup ty = some body) :
    TypeConverter.convertToXLS ty v n = (body ++ TypeConverter.makeListName n, 1) := by
  have hty : ty = "radio" ∨ ty = "checkbox" ∨ ty = "dropdown" := by
    unfold TypeConverter.convertFromTypeWithChoicesLookup at hlook
    split_ifs at hlook with h1 h2 h3
    · exact Or.inl h1
    · exact Or.inr (Or.inl h2)
    · exact Or.inr (Or.inr h3)
  rcases hty with rfl | rfl | rfl <;>
    simp_all [TypeConverter.convertToXLS, TypeConverter.convertFromTypeLookup,
      TypeConverter.convertFromTypeWithChoicesLookup]

theorem choiceType_ne_calculate (body : String) (x : String)
    (hb : body = "select_one " ∨ body = "select_multiple ") :
    body ++ x ≠ "calculate" := by
  intro h
  have hd := congrArg String.data h
  rcases hb with rfl | rfl <;> simp [String.data_append] at hd

theorem rowConverter_choice (h2t : String → String) (n : Nat)
    (nm fm ty lb ch hn vl mn mx br rq an body rel : String)
    (pairs : List (String × String)) (hnm : nm ≠ "")
    (hlook : TypeConverter.convertFromTypeWithChoicesLookup ty = some body)
    (hrel : RelevantConverter.convertToXLS br = some rel)
    (hpairs : choicesPairs ch = some pairs) :
    RowConverter.convertToXLS h2t stdHeaders stdConvertedHeaders n []
        [nm, fm, "", ty, lb, ch, hn, vl, mn, mx, br, rq, an] =
      some ⟨some (choiceRowOut h2t body n nm lb ch hn mn mx rel rq an),
        choiceEntriesOut body n pairs, 1⟩ := by
  rw [rowConverter_std h2t n nm fm "" ty lb ch hn vl mn mx br rq an hnm,
    typeConverter_choice ty vl n body hlook, hrel]
  simp only [Option.some_bind]
  rw [choicesConverter_pairs _ ch
    (choiceType_ne_calculate body _ (typeConverter_choiceBody ty body hlook)) pairs hpairs]
  simp only [Option.some_bind]
  rfl

theorem step_choice_found (h2t : String → String) (st : Converter.CState)
    (nm fm ty lb ch hn vl mn mx br rq an body rel : String)
    (pairs : List (String × String)) (k : Nat) (hnm : nm ≠ "")
    (hlook : TypeConverter.convertFromTypeWithChoicesLookup ty = some body)
    (hrel : RelevantConverter.convertToXLS br = some rel)
    (hpairs : choicesPairs ch = some pairs) (hpne : pairs ≠ [])
    (hidx : indexOfFirst st.choiceSets (sortStrings (pairs.map Prod.fst)) = some k) :
    Converter.step h2t stdHeaders stdConvertedHeaders [] st
        [nm, fm, "", ty, lb, ch, hn, vl, mn, mx, br, rq, an] =
      some ⟨st.questions ++ [choiceRowOut h2t body k nm lb ch hn mn mx rel rq an],
        st.choices, k, st.listNumberMax, st.choiceSets, st.prevGroups,
        some (sortStrings (pairs.map Prod.fst))⟩ := by
  have hne1 : choiceEntriesOut body st.listNumber pairs ≠ [] := by
    simp [choiceEntriesOut, hpne]
  have hne2 : choiceEntriesOut body k pairs ≠ [] := by
    simp [choiceEntriesOut, hpne]
  have hnames : ∀ m : Nat, (choiceEntriesOut body m pairs).map (fun x => x.name) =
      pairs.map Prod.fst := by
    intro m
    simp only [choiceEntriesOut, List.map_map]
    rfl
  have hmem := indexOfFirst_mem _ _ _ hidx
  unfold Converter.step
  rw [if_neg (by simp : ¬ ([nm, fm, "", ty, lb, ch, hn, vl, mn, mx, br, rq, an] : List String) = [])]
  rw [show indexOfFirst stdHeaders "Section Header" = some 2 from rfl]
  simp only [Option.bind_eq_bind, Option.some_bind, List.getElem?_cons_succ,
    List.getElem?_cons_zero]
  simp only [ne_eq, not_true_eq_false, if_false]
  rw [rowConverter_choice h2t st.listNumber nm fm ty lb ch hn vl mn mx br rq an body rel pairs
    hnm hlook hrel hpairs]
  simp only [Option.some_bind, hne1, hnames, hidx, not_false_eq_true, if_true]
  rw [rowConverter_choice h2t k nm fm ty lb ch hn vl mn mx br rq an body rel pairs
    hnm hlook hrel hpairs]
  simp only [Option.some_bind, hne2, not_false_eq_true, if_true, if_pos hmem]
  simp [choiceRowOut]

theorem step_choice_new (h2t : String → String) (st : Converter.CState)
    (nm fm ty lb ch hn vl mn mx br rq an body rel : String)
    (pairs : List (String × String)) (hnm : nm ≠ "")
    (hlook : TypeConverter.convertFromTypeWithChoicesLookup ty = some body)
    (hrel : RelevantConverter.convertToXLS br = some rel)
    (hpairs : choicesPairs ch = some pairs) (hpne : pairs ≠ [])
    (hidx : indexOfFirst st.choiceSets (sortStrings (pairs.map Prod.fst)) = none) :
    Converter.step h2t stdHeaders stdConvertedHeaders [] st
        [nm, fm, "", ty, lb, ch, hn, vl, mn, mx, br, rq, an] =
      some ⟨st.questions ++ [choiceRowOut h2t body st.listNumberMax nm lb ch hn mn mx rel rq an],
        st.choices ++ choiceEntriesOut body st.listNumberMax pairs,
        st.listNumberMax, st.listNumberMax + 1,
        st.choiceSets ++ [sortStrings (pairs.map Prod.fst)], st.prevGroups,
        some (sortStrings (pairs.map Prod.fst))⟩ := by
  have hne1 : choiceEntriesOut body st.listNumber pairs ≠ [] := by
    simp [choiceEntriesOut, hpne]
  have hne2 : choiceEntriesOut body st.listNumberMax pairs ≠ [] := by
    simp [choiceEntriesOut, hpne]
  have hnames : ∀ m : Nat, (choiceEntriesOut body m pairs).map (fun x => x.name) =
      pairs.map Prod.fst := by
    intro m
    simp only [choiceEntriesOut, List.map_map]
    rfl
  have hmem : sortStrings (pairs.map Prod.fst) ∉ st.choiceSets :=
    (indexOfFirst_eq_none_iff _ _).mp hidx
  unfold Converter.step
  rw [if_neg (by simp : ¬ ([nm, fm, "", ty, lb, ch, hn, vl, mn, mx, br, rq, an] : List String) = [])]
  rw [show indexOfFirst stdHeaders "Section Header" = some 2 from rfl]
  simp only [Option.bind_eq_bind, Option.some_bind, List.getElem?_cons_succ,
    List.getElem?_cons_zero]
  simp only [ne_eq, not_true_eq_false, if_false]
  rw [rowConverter_choice h2t st.listNumber nm fm ty lb ch hn vl mn mx br rq an body rel pairs
    hnm hlook hrel hpairs]
  simp only [Option.some_bind, hne1, hnames, hidx, not_false_eq_true, if_true]
  rw [rowConverter_choice h2t st.listNumberMax nm fm ty lb ch hn vl mn mx br rq an body rel pairs
    hnm hlook hrel hpairs]
  simp only [Option.some_bind, hne2, not_false_eq_true, if_true, if_neg hmem]
  simp [choiceRowOut]


/-- C5 counterexample: the claim keys list sharing on set-equality of the
option-name sets, but the registry compares sorted name lists (multisets):
two same-form radio fields with choices `1, a|1, b|2, c` and `1, x|2, y`
have equal option-name sets (both are the set of names 1, 2) yet receive
the different list names `list_0` and `list_1`, and the second field's
choice entries are appended instead of shared. -/
theorem claim_C5_counterexample :
    (Converter.convertContent (fun s => s) stdHeaders []
        [["fieldx", "f1", "", "radio", "", "1, a|1, b|2, c", "", "", "", "", "", "", ""],
         ["fieldy", "f1", "", "radio", "", "1, x|2, y", "", "", "", "", "", "", ""]]).map
        (fun p => p.1.map (fun q => q.getD 1 "")) =
      some ["select_one list_0", "select_one list_1"] ∧
    choicesPairs "1, a|1, b|2, c" = some [("1", "a"), ("1", "b"), ("2", "c")] ∧
    choicesPairs "1, x|2, y" = some [("1", "x"), ("2", "y")] ∧
    ([("1", "a"), ("1", "b"), ("2", "c")].map Prod.fst).dedup =
      ((([("1", "x"), ("2", "y")] : List (String × String)).map Prod.fst).dedup) ∧
    ("select_one list_0" : String) ≠ "select_one list_1" := by
  refine ⟨by decide, by decide, by decide, by decide, by decide⟩

/-- C5 (amended): the choice-list registry is keyed on the SORTED LIST of
option names (equality as multisets), not their set: within one form, a
choice-bearing row whose sorted option-name list is already registered at
position `k` reuses `list_k` and contributes no new choice entries, while a
row whose sorted list is unregistered is assigned the next free index,
registers its list at the registry position equal to that index, and has
its entries appended; a reused index always points at exactly the
registered sorted name list; and each form is converted independently, so
the registry is never shared across forms. -/
theorem claim_C5_amended :
    (∀ (h2t : String → String) (st : Converter.CState)
      (nm fm ty lb ch hn vl mn mx br rq an body rel : String)
      (pairs : List (String × String)) (k : Nat),
      nm ≠ "" →
      TypeConverter.convertFromTypeWithChoicesLookup ty = some body →
      RelevantConverter.convertToXLS br = some rel →
      choicesPairs ch = some pairs → pairs ≠ [] →
      indexOfFirst st.choiceSets (sortStrings (pairs.map Prod.fst)) = some k →
      Converter.step h2t stdHeaders stdConvertedHeaders [] st
          [nm, fm, "", ty, lb, ch, hn, vl, mn, mx, br, rq, an] =
        some ⟨st.questions ++ [choiceRowOut h2t body k nm lb ch hn mn mx rel rq an],
          st.choices, k, st.listNumberMax, st.choiceSets, st.prevGroups,
          some (sortStrings (pairs.map Prod.fst))⟩) ∧
    (∀ (h2t : String → String) (st : Converter.CState)
      (nm fm ty lb ch hn vl mn mx br rq an body rel : String)
      (pairs : List (String × String)),
      nm ≠ "" →
      TypeConverter.convertFromTypeWithChoicesLookup ty = some body →
      RelevantConverter.convertToXLS br = some rel →
      choicesPairs ch = some pairs → pairs ≠ [] →
      indexOfFirst st.choiceSets (sortStrings (pairs.map Prod.fst)) = none →
      Converter.step h2t stdHeaders stdConvertedHeaders [] st
          [nm, fm, "", ty, lb, ch, hn, vl, mn, mx, br, rq, an] =
        some ⟨st.questions ++
            [choiceRowOut h2t body st.listNumberMax nm lb ch hn mn mx rel rq an],
          st.choices ++ choiceEntriesOut body st.listNumberMax pairs,
          st.listNumberMax, st.listNumberMax + 1,
          st.choiceSets ++ [sortStrings (pairs.map Prod.fst)], st.prevGroups,
          some (sortStrings (pairs.map Prod.fst))⟩) ∧
    (∀ (sets : List (List String)) (names : List String) (k : Nat),
      indexOfFirst sets names = some k → sets[k]? = some names) ∧
    (∀ (h2t : String → String) (cols : List String) (f1 f2 : RedcapContent)
      (o1 o2 : XLSContent),
      Converter.convert h2t cols [f1, f2] = some [o1, o2] →
      Converter.convert h2t cols [f2] = some [o2]) := by
  refine ⟨step_choice_found, step_choice_new, indexOfFirst_get, ?_⟩
  intro h2t cols f1 f2 o1 o2 h
  simp only [Converter.convert, List.mapM_cons, List.mapM_nil] at h ⊢
  cases h1 : Converter.convertOneForm h2t cols f1 with
  | none => simp [h1] at h
  | some a =>
    cases h2 : Converter.convertOneForm h2t cols f2 with
    | none => simp [h1, h2] at h
    | some b =>
      simp only [h1, h2, Option.bind_eq_bind, Option.some_bind, Option.pure_def,
        Option.some.injEq] at h ⊢
      obtain ⟨rfl, rfl, -⟩ : o1 = a ∧ o2 = b ∧ True := by
        have hl := h
        simp at hl
        exact ⟨hl.1.symm, hl.2.symm, trivial⟩
      rfl

/-- C5 witness: the reuse case applied to a concrete state whose registry
already holds the sorted name list of the row's choices. -/
theorem claim_C5_witness :
    (("fieldy" : String) ≠ "" ∧
      TypeConverter.convertFromTypeWithChoicesLookup "radio" = some "select_one " ∧
      RelevantConverter.convertToXLS "" = some "" ∧
      choicesPairs "1, x|2, y" = some [("1", "x"), ("2", "y")] ∧
      ([("1", "x"), ("2", "y")] : List (String × String)) ≠ [] ∧
      indexOfFirst [["1", "2"]]
        (sortStrings (([("1", "x"), ("2", "y")] : List (String × String)).map Prod.fst)) =
        some 0) ∧
    Converter.step (fun s => s) stdHeaders stdConvertedHeaders []
        ⟨[], Converter.defaultChoices, 0, 1, [["1", "2"]], 0, none⟩
        ["fieldy", "f1", "", "radio", "", "1, x|2, y", "", "", "", "", "", "", ""] =
      some ⟨[choiceRowOut (fun s => s) "select_one " 0 "fieldy" "" "1, x|2, y" "" "" "" "" "" ""],
        Converter.defaultChoices, 0, 1, [["1", "2"]], 0,
        some (sortStrings (([("1", "x"), ("2", "y")] : List (String × String)).map Prod.fst))⟩ :=
  ⟨⟨by decide, by decide, by decide, by decide, by decide, by decide⟩,
    claim_C5_amended.1 (fun s => s) ⟨[], Converter.defaultChoices, 0, 1, [["1", "2"]], 0, none⟩
      "fieldy" "f1" "radio" "" "1, x|2, y" "" "" "" "" "" "" "" "select_one " ""
      [("1", "x"), ("2", "y")] 0 (by decide) (by decide) (by decide) (by decide) (by decide)
      (by decide)⟩
